import Mathlib

/-!
Verification of the Chronicle log-ingestion core (`secops/chronicle/log_ingest.py`).

The Python module is shallowly embedded: pure helpers become Lean functions,
HTTP traffic is modelled by an explicit `Server` description plus a request
trace, and the mutable client cache is threaded as explicit state.  Python
exceptions become the `Err` sum (`ValueError` ↦ `Err.value`, `APIError` ↦
`Err.api`); `Err.stuck` marks model states that cannot arise for well-formed
inputs (for example exhausted structural fuel).
-/

namespace SecOps

/-! ## String primitives

Python's string operations are re-implemented by structural recursion over
the character list, so that every model function evaluates inside the
kernel on concrete inputs. -/

/-- Python `s.split(sep)` for a single-character separator:
`"" ↦ [""]`, adjacent separators produce empty segments. -/
def splitChar (c : Char) : List Char → List (List Char)
  | [] => [[]]
  | x :: xs =>
    let r := splitChar c xs
    if x = c then [] :: r
    else
      match r with
      | h :: t => (x :: h) :: t
      | [] => [[x]]

/-- Python `s.split("/")`, as strings. -/
def pySplitSlash (s : String) : List String :=
  (splitChar '/' s.data).map String.mk

/-- Python `c in s` for a single character. -/
def pyContainsChar (s : String) (c : Char) : Bool :=
  s.data.contains c

/-- Is `pat` a prefix of `l`? -/
def isPrefixList : List Char → List Char → Bool
  | [], _ => true
  | _ :: _, [] => false
  | p :: ps, x :: xs => p = x && isPrefixList ps xs

/-- Python `pat in s` (substring containment). -/
def containsSubList (pat : List Char) : List Char → Bool
  | [] => pat.isEmpty
  | x :: xs => isPrefixList pat (x :: xs) || containsSubList pat xs

/-- Python `pat in s`, as strings. -/
def pyContainsSub (s pat : String) : Bool :=
  containsSubList pat.data s.data

/-- Left-to-right non-overlapping replacement, fuel-bounded (called with
`fuel = l.length`, enough for any non-empty pattern). -/
def replaceAux (pat rep : List Char) : Nat → List Char → List Char
  | _, [] => []
  | 0, l => l
  | n + 1, x :: xs =>
    if isPrefixList pat (x :: xs) then
      rep ++ replaceAux pat rep n (xs.drop (pat.length - 1))
    else
      x :: replaceAux pat rep n xs

/-- Python `s.replace(pat, rep)` for a non-empty pattern. -/
def pyReplace (s pat rep : String) : String :=
  String.mk (replaceAux pat.data rep.data s.data.length s.data)

/-- Python `s.lower()` restricted to ASCII (all strings it is applied to
here are ASCII error messages). -/
def pyLowerAscii (s : String) : String :=
  String.mk (s.data.map (fun ch =>
    if 'A' ≤ ch ∧ ch ≤ 'Z' then Char.ofNat (ch.toNat + 32) else ch))

/-- An ASCII whitespace character (the cases `str.strip()` removes that
can occur in response bodies here). -/
def isSpaceChar (c : Char) : Bool :=
  c = ' ' || c = '\t' || c = '\n' || c = '\r'

/-- Python `s.strip()`. -/
def pyStrip (s : String) : String :=
  String.mk (((s.data.dropWhile isSpaceChar).reverse.dropWhile isSpaceChar).reverse)

/-- Errors: `value` models Python `ValueError` (the spec's `InvalidArgument`),
`api` models `APIError`, `stuck` is a model-only artefact for ill-formed
heaps or exhausted fuel. -/
inductive Err where
  | value (msg : String)
  | api (msg : String)
  | stuck
deriving Repr, DecidableEq

/-- Decidable equality on `Except` results, for concrete evaluation. -/
instance {ε α : Type} [DecidableEq ε] [DecidableEq α] : DecidableEq (Except ε α) := by
  intro a b
  cases a <;> cases b
  case error.error e e' =>
    exact if h : e = e' then .isTrue (by rw [h]) else .isFalse (by intro hc; cases hc; exact h rfl)
  case error.ok _ _ => exact .isFalse (by intro hc; cases hc)
  case ok.error _ _ => exact .isFalse (by intro hc; cases hc)
  case ok.ok v v' =>
    exact if h : v = v' then .isTrue (by rw [h]) else .isFalse (by intro hc; cases hc; exact h rfl)

/-- A forwarder resource: full resource name plus display name.  Config
fields are irrelevant to every claim and omitted. -/
structure Fwd where
  name : String
  displayName : String
deriving Repr, DecidableEq

/-- The `extract_forwarder_id` from `log_ingest.py`: empty name is a
`ValueError`; a name without `/` is returned as-is; otherwise split on `/`,
drop empty segments, error if nothing remains, else return the last
segment. -/
def extract_forwarder_id (forwarder_name : String) : Except Err String :=
  if forwarder_name = "" then
    .error (.value "Forwarder name cannot be empty")
  else if ¬ pyContainsChar forwarder_name '/' then
    .ok forwarder_name
  else
    let segments := (pySplitSlash forwarder_name).filter (fun s => s ≠ "")
    match segments.getLast? with
    | none => .error (.value ("Invalid forwarder name format: " ++ forwarder_name))
    | some s => .ok s

/-! ## Datetimes

Python `datetime` values are modelled by their calendar fields plus an
optional UTC offset in minutes (`none` = naive).  Comparison between two
datetimes is modelled on the instant timeline (`instantOf`), treating naive
values as offset 0; on naive/naive and aware/aware pairs with in-range
fields this agrees with Python's ordering. -/

/-- A Python `datetime`: calendar fields plus optional UTC offset
(minutes); `offsetMinutes = none` models a naive datetime. -/
structure DT where
  year : Nat
  month : Nat
  day : Nat
  hour : Nat
  minute : Nat
  second : Nat
  micro : Nat
  offsetMinutes : Option Int
deriving Repr, DecidableEq

/-- Days since 1970-01-01 of a proleptic-Gregorian civil date
(Howard Hinnant's `days_from_civil`). -/
def daysFromCivil (y m d : Int) : Int :=
  let y' := if m ≤ 2 then y - 1 else y
  let era := Int.fdiv y' 400
  let yoe := y' - era * 400
  let mp := Int.emod (m + 9) 12
  let doy := Int.ediv (153 * mp + 2) 5 + d - 1
  let doe := yoe * 365 + Int.ediv yoe 4 - Int.ediv yoe 100 + doy
  era * 146097 + doe - 719468

/-- The microsecond count encoded by a datetime's own fields, read as if
they were UTC. -/
def dtFieldsMicros (t : DT) : Int :=
  ((((daysFromCivil t.year t.month t.day) * 24 + t.hour) * 60 + t.minute) * 60
      + t.second) * 1000000 + t.micro

/-- The instant a datetime denotes: its fields minus its UTC offset
(naive values are read with offset 0). -/
def instantOf (t : DT) : Int :=
  dtFieldsMicros t - (t.offsetMinutes.getD 0) * 60000000

/-- Python `<` on datetimes, modelled on the instant timeline. -/
def dtLt (a b : DT) : Bool :=
  decide (instantOf a < instantOf b)

/-- Decimal digits of `n`, most significant first (`[]` for 0); `fuel`
bounds the recursion and any `fuel ≥ n` is exact. -/
def decDigitsAux : Nat → Nat → List Char
  | 0, _ => []
  | fuel + 1, n =>
    if n = 0 then [] else decDigitsAux fuel (n / 10) ++ [Char.ofNat (48 + n % 10)]

/-- Decimal rendering of a natural number. -/
def decStr (n : Nat) : String :=
  if n = 0 then "0" else String.mk (decDigitsAux n n)

/-- Left-pad a decimal rendering with zeros to width `n` (Python's
`%0nd`). -/
def padZ (n : Nat) (v : Nat) : String :=
  let s := decStr v
  if s.length < n then String.mk (List.replicate (n - s.length) '0') ++ s else s

/-- The `strftime("%Y-%m-%dT%H:%M:%S")` of a datetime's own fields (no
timezone conversion, exactly as CPython renders the fields). -/
def dtBasicStr (t : DT) : String :=
  padZ 4 t.year ++ "-" ++ padZ 2 t.month ++ "-" ++ padZ 2 t.day ++ "T" ++
    padZ 2 t.hour ++ ":" ++ padZ 2 t.minute ++ ":" ++ padZ 2 t.second

/-- The `strftime("%Y-%m-%dT%H:%M:%S.%fZ")` as used by `ingest_log`: the
datetime's own fields, microseconds zero-padded to six digits, and a
literal `Z` appended with no conversion to UTC. -/
def strftimeLog (t : DT) : String :=
  dtBasicStr t ++ "." ++ padZ 6 t.micro ++ "Z"

/-- The `±HH:MM` offset suffix `datetime.isoformat` renders for an aware
datetime whose offset is a whole number of minutes. -/
def isoOffsetStr (off : Int) : String :=
  (if off < 0 then "-" else "+") ++ padZ 2 (off.natAbs / 60) ++ ":" ++ padZ 2 (off.natAbs % 60)

/-- Python `datetime.isoformat()` on an aware datetime: fields, fractional
part omitted when `microsecond == 0`, then the numeric offset.  A naive
input is read with offset 0 (here it is only applied to the aware result
of `astimezone()`). -/
def isoformat (t : DT) : String :=
  dtBasicStr t ++ (if t.micro ≠ 0 then "." ++ padZ 6 t.micro else "") ++
    isoOffsetStr (t.offsetMinutes.getD 0)

/-- The timestamp string `ingest_udm` back-fills:
`datetime.now().astimezone().isoformat().replace("+00:00", "Z")`, where the
model receives the local-zone-aware "now" as a parameter. -/
def pyIsoZ (t : DT) : String :=
  pyReplace (isoformat t) "+00:00" "Z"

/-! ## Base64 of UTF-8, as `base64.b64encode(msg.encode("utf-8"))` -/

/-- UTF-8 bytes of one code point. -/
def utf8Bytes (c : Nat) : List Nat :=
  if c < 0x80 then [c]
  else if c < 0x800 then
    [0xC0 + c / 0x40, 0x80 + c % 0x40]
  else if c < 0x10000 then
    [0xE0 + c / 0x1000, 0x80 + (c / 0x40) % 0x40, 0x80 + c % 0x40]
  else
    [0xF0 + c / 0x40000, 0x80 + (c / 0x1000) % 0x40, 0x80 + (c / 0x40) % 0x40, 0x80 + c % 0x40]

/-- UTF-8 encoding of a string, as a byte list. -/
def utf8Encode (s : String) : List Nat :=
  (s.data.map (fun c => utf8Bytes c.toNat)).flatten

/-- The base64 alphabet. -/
def b64Char (n : Nat) : Char :=
  "ABCDEFGHIJKLMNOPQRSTUVWXYZabcdefghijklmnopqrstuvwxyz0123456789+/".toList.getD n 'A'

/-- Standard base64 of a byte list, with `=` padding. -/
def b64Encode : List Nat → String
  | [] => ""
  | [a] => String.mk [b64Char (a / 4), b64Char (a % 4 * 16)] ++ "=="
  | [a, b] =>
      String.mk [b64Char (a / 4), b64Char (a % 4 * 16 + b / 16), b64Char (b % 16 * 4)] ++ "="
  | a :: b :: c :: rest =>
      String.mk [b64Char (a / 4), b64Char (a % 4 * 16 + b / 16),
        b64Char (b % 16 * 4 + c / 64), b64Char (c % 64)] ++ b64Encode rest

/-- The `base64.b64encode(s.encode("utf-8")).decode("utf-8")`. -/
def b64OfString (s : String) : String :=
  b64Encode (utf8Encode s)

/-! ## JSON trees and wire requests -/

/-- A JSON-like value: enough structure for UDM events and response
bodies (string leaves and ordered string-keyed objects). -/
inductive JTree where
  | str : String → JTree
  | dict : List (String × JTree) → JTree

instance : Inhabited JTree := ⟨.dict []⟩

/-- First-occurrence lookup in a `JTree.dict`, like Python `d[k]`. -/
def treeGet (t : JTree) (k : String) : Option JTree :=
  match t with
  | .str _ => none
  | .dict fields => (fields.find? (fun kv => kv.1 = k)).map (fun kv => kv.2)

/-- A log label value on the wire (`{"value": v}`). -/
structure LogLabel where
  value : String
deriving Repr, DecidableEq

/-- One entry of the `inline_source.logs` array of a log-import request. -/
structure LogEntry where
  data : String
  log_entry_time : String
  collection_time : String
  environment_namespace : Option String
  labels : Option (List (String × LogLabel))
deriving Repr, DecidableEq

/-- The `inline_source` payload of a log-import request. -/
structure LogsPayload where
  logs : List LogEntry
  forwarder : String
deriving Repr, DecidableEq

/-- One HTTP request issued through the session, as observed by a test
double: endpoint plus the arguments that reach the wire. -/
inductive Req where
  | listFwd (pageSize : Option Int) (pageToken : Option String)
  | getFwd (forwarder_id : String)
  | createFwd (displayName : String)
  | importLogs (logType : String) (payload : LogsPayload)
  | importEvents (events : List JTree)

/-- The `pageSize` query parameter of a list-forwarders request (`none`
for other requests). -/
def reqPageSizeParam : Req → Option (Option Int)
  | .listFwd ps _ => some ps
  | _ => none

/-! ## The session backend

`list_forwarders` recurses through pages; the paged backend is modelled as
the list of page responses in fetch order: the head answers the current
request and, when the code follows a `nextPageToken`, the tail answers the
recursive call. -/

/-- One page response of the list-forwarders endpoint.  `forwarders =
none` models a body without a `"forwarders"` key, `nextPageToken = none` a
body without a `"nextPageToken"` key. -/
structure ListResp where
  status : Nat
  text : String
  forwarders : Option (List Fwd)
  nextPageToken : Option String
deriving Repr, DecidableEq

/-- The dictionary `list_forwarders` returns (same optional keys as
`ListResp`). -/
structure ListResult where
  forwarders : Option (List Fwd)
  nextPageToken : Option String
deriving Repr, DecidableEq

/-- The request `list_forwarders` issues for one page: falsy `page_size`
(0) omits the `pageSize` parameter, otherwise it is clamped by
`min(1000, max(1, page_size))`; falsy `page_token` omits `pageToken`. -/
def lfpReq (page_size : Int) (page_token : Option String) : Req :=
  .listFwd (if page_size ≠ 0 then some (min 1000 (max 1 page_size)) else none)
    (match page_token with
     | some t => if t ≠ "" then some t else none
     | none => none)

/-- The tail of `list_forwarders` after a recursive fetch: extend
`result["forwarders"]` with the non-empty forwarders of the next page
(`result["forwarders"]` absent with a non-empty inner list is Python's
`KeyError`, modelled as `stuck`), then `pop` the `nextPageToken` key. -/
def lfpAfter (r : ListResp) (req : Req) (recres : Except Err ListResult × List Req) :
    Except Err ListResult × List Req :=
  match recres with
  | (.error e, reqs) => (.error e, req :: reqs)
  | (.ok next, reqs) =>
    let combined : Except Err (Option (List Fwd)) :=
      match next.forwarders with
      | some nfs =>
        if nfs ≠ [] then
          match r.forwarders with
          | some fs => .ok (some (fs ++ nfs))
          | none => .error .stuck
        else .ok r.forwarders
      | none => .ok r.forwarders
    match combined with
    | .error e => (.error e, req :: reqs)
    | .ok fs => (.ok ⟨fs, none⟩, req :: reqs)

/-- The `list_forwarders`, over a paged backend.  One page request; non-200
raises `APIError`; a truthy `nextPageToken` triggers a recursive fetch
combined by `lfpAfter`. -/
def list_forwarders_pages (pages : List ListResp) (page_size : Int)
    (page_token : Option String) : Except Err ListResult × List Req :=
  match pages with
  | [] => (.error .stuck, [])
  | r :: rest =>
    let req : Req := lfpReq page_size page_token
    if r.status ≠ 200 then
      (.error (.api ("Failed to list forwarders: " ++ r.text)), [req])
    else
      match r.nextPageToken with
      | some t =>
        if t ≠ "" then lfpAfter r req (list_forwarders_pages rest page_size (some t))
        else (.ok ⟨r.forwarders, r.nextPageToken⟩, [req])
      | none => (.ok ⟨r.forwarders, r.nextPageToken⟩, [req])

/-! ## Server-backed directory operations

For the stateful protocol (`get_or_create_forwarder`, `ingest_log`) the
remote end is modelled as an explicit store of forwarders plus the status
codes and bodies it answers with. -/

/-- The remote Chronicle instance as the client observes it. -/
structure Server where
  forwarders : List Fwd
  listStatus : Nat
  listText : String
  getStatus : Nat
  getText : String
  createStatus : Nat
  createText : String
  createName : String
  logImpStatus : Nat
  logImpText : String
  logImpJson : JTree
  udmImpStatus : Nat
  udmImpText : String
  udmImpJsonOk : Bool
  udmImpJson : JTree

/-- The client context: instance id, the fixed default display name and
the mutable default-forwarder cache slot. -/
structure Client where
  instanceId : String
  defaultDisplayName : String
  cachedDefaultForwarderId : Option String
deriving Repr, DecidableEq

/-- The short id of a stored forwarder, used by the server model to route
a get-by-id request. -/
def fwdHasId (f : Fwd) (id : String) : Bool :=
  match extract_forwarder_id f.name with
  | .ok i => i = id
  | .error _ => false

/-- The single page the server store answers a list request with (all
forwarders, no next-page token) under `listStatus`. -/
def serverListPages (s : Server) : List ListResp :=
  [⟨s.listStatus, s.listText, some s.forwarders, none⟩]

/-- The `get_forwarder`: a non-200 status (including not-found) raises
`APIError`, otherwise the body is the forwarder. -/
def get_forwarder (s : Server) (forwarder_id : String) : Except Err Fwd × List Req :=
  let req : Req := .getFwd forwarder_id
  match s.forwarders.find? (fun f => fwdHasId f forwarder_id) with
  | some f =>
      if s.getStatus ≠ 200 then (.error (.api ("Failed to get forwarder: " ++ s.getText)), [req])
      else (.ok f, [req])
  | none => (.error (.api "Failed to get forwarder: not found"), [req])

/-- The `create_forwarder`: non-200 raises `APIError`; on success the server
stores a forwarder under its assigned `createName` and returns it. -/
def create_forwarder (s : Server) (display_name : String) :
    Except Err Fwd × Server × List Req :=
  let req : Req := .createFwd display_name
  if s.createStatus ≠ 200 then
    (.error (.api ("Failed to create forwarder: " ++ s.createText)), s, [req])
  else
    let f : Fwd := ⟨s.createName, display_name⟩
    (.ok f, { s with forwarders := s.forwarders ++ [f] }, [req])

/-- Substring test (`needle` non-empty), as Python `in` on strings. -/
def strContains (s needle : String) : Bool :=
  pyContainsSub s needle

/-- The `_find_forwarder_by_display_name`: list (page size 1000, pagination
inside `list_forwarders`), then linear scan for an exact display-name
match; a listing failure is re-raised with context. -/
def find_forwarder_by_display_name (s : Server) (display_name : String) :
    Except Err (Option Fwd) × List Req :=
  match list_forwarders_pages (serverListPages s) 1000 none with
  | (.error e, reqs) =>
    let msg := match e with | .api m => m | .value m => m | .stuck => "stuck"
    (.error (.api ("Failed to list forwarders while searching for '" ++ display_name ++ "': "
      ++ msg)), reqs)
  | (.ok r, reqs) =>
    ((.ok ((r.forwarders.getD []).find? (fun f => f.displayName = display_name))), reqs)

/-- The `except APIError` handler of `get_or_create_forwarder`: an error
message containing "permission" (case-insensitive) is re-wrapped. -/
def permWrap (e : Err) : Err :=
  match e with
  | .api m =>
    if strContains (pyLowerAscii m) "permission" then
      .api ("Insufficient permissions to manage forwarders: " ++ m)
    else .api m
  | e => e

/-- Python `x or dflt` on an optional string: `None` and `""` are both
falsy and yield the default. -/
def pyOrStr (x : Option String) (dflt : String) : String :=
  match x with
  | some d => if d = "" then dflt else d
  | none => dflt

/-- The warm-cache step of `get_or_create_forwarder`: the guard is the
Python truthiness check `is_default and client._cached_default_forwarder_id`,
so an absent or empty cached id skips the step (no request, slot kept).
On a default request with a truthy cached id, try a direct get; return
the forwarder (`some`) when its display name matches the fixed default,
otherwise (or on a get failure) invalidate the cache and fall through
(`none`). -/
def gocfWarm (c : Client) (s : Server) (isDefault : Bool) : Option Fwd × Client × List Req :=
  if isDefault then
    match c.cachedDefaultForwarderId with
    | some cid =>
      if cid = "" then (none, c, [])
      else
        match get_forwarder s cid with
        | (.ok f, reqs) =>
          if f.displayName = c.defaultDisplayName then (some f, c, reqs)
          else (none, { c with cachedDefaultForwarderId := none }, reqs)
        | (.error _, reqs) => (none, { c with cachedDefaultForwarderId := none }, reqs)
    | none => (none, c, [])
  else (none, c, [])

/-- The `get_or_create_forwarder`: resolve the target name with Python
`display_name or default` (`None` and `""` both fall back to the default
name); on a default request with a truthy cached id try a direct get,
returning on a display-name match and invalidating the cache otherwise;
then search by display name, else create, caching the resolved or
created id only for the default name.  A permission-mentioning
`APIError` is re-wrapped by `permWrap`. -/
def get_or_create_forwarder (c : Client) (s : Server) (display_name : Option String) :
    Except Err Fwd × Client × Server × List Req :=
  let target := pyOrStr display_name c.defaultDisplayName
  let isDefault : Bool := target = c.defaultDisplayName
  match gocfWarm c s isDefault with
  | (some f, c1, reqs) => (.ok f, c1, s, reqs)
  | (none, c1, reqs1) =>
    match find_forwarder_by_display_name s target with
    | (.error e, reqs2) => (.error (permWrap e), c1, s, reqs1 ++ reqs2)
    | (.ok (some f), reqs2) =>
      if isDefault then
        match extract_forwarder_id f.name with
        | .ok fid =>
          (.ok f, { c1 with cachedDefaultForwarderId := some fid }, s, reqs1 ++ reqs2)
        | .error e => (.error e, c1, s, reqs1 ++ reqs2)
      else (.ok f, c1, s, reqs1 ++ reqs2)
    | (.ok none, reqs2) =>
      match create_forwarder s target with
      | (.error e, s2, reqs3) => (.error (permWrap e), c1, s2, reqs1 ++ reqs2 ++ reqs3)
      | (.ok nf, s2, reqs3) =>
        if isDefault then
          match extract_forwarder_id nf.name with
          | .ok fid =>
            (.ok nf, { c1 with cachedDefaultForwarderId := some fid }, s2,
              reqs1 ++ reqs2 ++ reqs3)
          | .error e => (.error e, c1, s2, reqs1 ++ reqs2 ++ reqs3)
        else (.ok nf, c1, s2, reqs1 ++ reqs2 ++ reqs3)

/-! ## Log ingestion -/

/-- Modelled from the spec: `is_valid_log_type` lives in
`secops/chronicle/log_types.py`, which is not part of the examined
sources; the spec says only that the log type is validated "against a
known-type registry", so the registry is an explicit parameter and
validity is membership. -/
def is_valid_log_type (registry : List String) (log_type : String) : Bool :=
  registry.contains log_type

/-- The log-import request `ingest_log` posts: the forwarder resource
path is completed for a bare id; the message argument is normalised to a
list; each message is base64-encoded and carries both formatted
timestamps, the namespace when truthy, and `{value: v}`-wrapped labels
when truthy. -/
def logWire (c : Client) (log_type : String) (log_message : String ⊕ List String)
    (entryStr collStr : String) (nspace : Option String)
    (labels : Option (List (String × String))) (fid : String) : Req :=
  let resource :=
    if ¬ pyContainsChar fid '/' then c.instanceId ++ "/forwarders/" ++ fid else fid
  let msgs := match log_message with | .inl m => [m] | .inr l => l
  let logs := msgs.map (fun m =>
    ({ data := b64OfString m
       log_entry_time := entryStr
       collection_time := collStr
       environment_namespace :=
         match nspace with
         | some ns => if ns ≠ "" then some ns else none
         | none => none
       labels :=
         match labels with
         | some ls =>
           if ls ≠ [] then some (ls.map (fun kv => (kv.1, LogLabel.mk kv.2))) else none
         | none => none } : LogEntry))
  .importLogs log_type ⟨logs, resource⟩

/-- The `ingest_log`: validate the log type (unless forced), default missing
timestamps to the same `now`, reject `collection_time < log_entry_time`,
format both timestamps with `strftime("%Y-%m-%dT%H:%M:%S.%fZ")`, resolve
the forwarder (directory lookup when no id is given, resource-path
completion for a bare id), base64-encode each message, and post one
request to the import endpoint; non-200 raises `APIError`. -/
def ingest_log (c : Client) (s : Server) (registry : List String) (log_type : String)
    (log_message : String ⊕ List String) (log_entry_time : Option DT)
    (collection_time : Option DT) (nspace : Option String)
    (labels : Option (List (String × String))) (forwarder_id : Option String)
    (force_log_type : Bool) (now : DT) :
    Except Err JTree × Client × Server × List Req :=
  if ¬ is_valid_log_type registry log_type ∧ ¬ force_log_type then
    (.error (.value ("Invalid log type: " ++ log_type
      ++ ". Use force_log_type=True to override.")), c, s, [])
  else
    let entry := log_entry_time.getD now
    let coll := collection_time.getD now
    if dtLt coll entry then
      (.error (.value "Collection time must be same or after log entry time"), c, s, [])
    else
      let entryStr := strftimeLog entry
      let collStr := strftimeLog coll
      -- resolve the forwarder id, possibly through the directory
      let resolved : Except Err String × Client × Server × List Req :=
        match forwarder_id with
        | some fid => (.ok fid, c, s, [])
        | none =>
          match get_or_create_forwarder c s none with
          | (.ok f, c1, s1, reqs) =>
            match extract_forwarder_id f.name with
            | .ok fid => (.ok fid, c1, s1, reqs)
            | .error e => (.error e, c1, s1, reqs)
          | (.error e, c1, s1, reqs) => (.error e, c1, s1, reqs)
      match resolved with
      | (.error e, c1, s1, reqs) => (.error e, c1, s1, reqs)
      | (.ok fid, c1, s1, reqs) =>
        let req : Req := logWire c1 log_type log_message entryStr collStr nspace labels fid
        if s1.logImpStatus ≠ 200 then
          (.error (.api ("Failed to ingest log: " ++ s1.logImpText)), c1, s1,
            reqs ++ [req])
        else (.ok s1.logImpJson, c1, s1, reqs ++ [req])

/-! ## UDM event ingestion: a small Python object heap

`ingest_udm` mutates dictionaries in place after a `deepcopy`, so Python's
object graph is made explicit: a heap of dictionaries addressed by index,
values being string leaves or references to heap objects.  Reading a value
back out as a `JTree` recovers deep equality. -/

/-- A Python value: a string leaf or a reference to a dict on the heap. -/
inductive PVal where
  | str : String → PVal
  | ref : Nat → PVal
deriving Repr, DecidableEq

/-- A Python dict: ordered association list (keys unique in any dict that
came from Python). -/
abbrev Obj := List (String × PVal)

/-- The heap: dict objects addressed by position. -/
abbrev Heap := List Obj

/-- First-occurrence lookup, Python `d[k]` / `k in d`. -/
def objGet (o : Obj) (k : String) : Option PVal :=
  (o.find? (fun kv => kv.1 = k)).map (fun kv => kv.2)

/-- Python `d[k] = v`: replace the value of an existing key in place,
else append the pair. -/
def objSet (o : Obj) (k : String) (v : PVal) : Obj :=
  if (o.find? (fun kv => kv.1 = k)).isSome then
    o.map (fun kv => if kv.1 = k then (kv.1, v) else kv)
  else o ++ [(k, v)]

/-- Read the fields of one dict with a given value-reader. -/
def readObjWith (rd : PVal → Option JTree) : Obj → Option (List (String × JTree))
  | [] => some []
  | (k, v) :: rest =>
    (rd v).bind (fun t => (readObjWith rd rest).map (fun l => (k, t) :: l))

/-- Read a value back as a deep tree; `n` bounds reference-chain depth and
`none` reports a dangling address or exhausted fuel. -/
def readTree (n : Nat) (h : Heap) (v : PVal) : Option JTree :=
  match v with
  | .str s => some (.str s)
  | .ref a =>
    match n with
    | 0 => none
    | n' + 1 =>
      (h.get? a).bind (fun o => (readObjWith (readTree n' h) o).map JTree.dict)

/-- Copy the fields of one dict with a given value-copier, threading the
heap. -/
def deepcopyObjWith (cp : Heap → PVal → Option (PVal × Heap)) : Heap → Obj → Option (Obj × Heap)
  | h, [] => some ([], h)
  | h, (k, v) :: rest =>
    (cp h v).bind (fun p =>
      (deepcopyObjWith cp p.2 rest).map (fun q => ((k, p.1) :: q.1, q.2)))

/-- The `copy.deepcopy` of one value: strings are immutable leaves; a dict
reference is copied field-by-field onto a fresh address appended at the
end of the heap.  `n` bounds depth (`none` = exhausted fuel or dangling
address). -/
def deepcopyVal (n : Nat) (h : Heap) (v : PVal) : Option (PVal × Heap) :=
  match v with
  | .str s => some (.str s, h)
  | .ref a =>
    match n with
    | 0 => none
    | n' + 1 =>
      (h.get? a).bind (fun o =>
        (deepcopyObjWith (deepcopyVal n') h o).map (fun p => (.ref p.2.length, p.2 ++ [p.1])))

/-- The `deepcopy` of the event list itself (`copy.deepcopy(udm_events)` copies
the outer list too), threading the heap. -/
def deepcopyList (n : Nat) (h : Heap) : List PVal → Option (List PVal × Heap)
  | [] => some ([], h)
  | v :: rest =>
    (deepcopyVal n h v).bind (fun p =>
      (deepcopyList n p.2 rest).map (fun q => (p.1 :: q.1, q.2)))

/-- The per-event validation/back-fill loop of `ingest_udm`, over the
copied events: checks the event is a dict with a dict `"metadata"`,
back-fills `event_timestamp` with `ts` when absent, and (when requested)
`id` with the next fresh uuid.  Returns the outcome, the heap after the
mutations performed so far, and the next uuid index. -/
def processEvents (h : Heap) (events : List PVal) (add_missing_ids : Bool)
    (ts : String) (uuidSrc : Nat → String) (k : Nat) : Except Err Unit × Heap × Nat :=
  match events with
  | [] => (.ok (), h, k)
  | e :: rest =>
    match e with
    | .str _ => (.error (.value "Invalid UDM event type: events must be dictionaries"), h, k)
    | .ref a =>
      match h.get? a with
      | none => (.error .stuck, h, k)
      | some obj =>
        match objGet obj "metadata" with
        | none => (.error (.value "UDM event missing required 'metadata' section"), h, k)
        | some (.str _) => (.error (.value "UDM 'metadata' must be a dictionary"), h, k)
        | some (.ref ma) =>
          match h.get? ma with
          | none => (.error .stuck, h, k)
          | some mobj =>
            let mobj1 :=
              if (objGet mobj "event_timestamp").isNone then
                objSet mobj "event_timestamp" (.str ts)
              else mobj
            let pair :=
              if add_missing_ids ∧ (objGet mobj1 "id").isNone then
                (objSet mobj1 "id" (.str (uuidSrc k)), k + 1)
              else (mobj1, k)
            processEvents (h.set ma pair.1) rest add_missing_ids ts uuidSrc pair.2

/-- Read each copied event back as the JSON the request body would carry. -/
def readEvents (n : Nat) (h : Heap) : List PVal → Option (List JTree)
  | [] => some []
  | v :: rest =>
    (readTree n h v).bind (fun t => (readEvents n h rest).map (fun l => t :: l))

/-- The `ingest_udm`: wrap a single dict into a list, reject an empty list,
deep-copy the events, validate/back-fill each copy (`nowLocal` stands for
`datetime.now().astimezone()`, `uuidSrc` for the stream of `uuid.uuid4()`
results), post the copies as `{udm: event}` wrappers, raise `APIError` on
status ≥ 400, and decode the body (raw-text fallback when unparseable,
empty dict when empty). -/
def ingest_udm (h : Heap) (udm_events : Nat ⊕ List PVal) (add_missing_ids : Bool)
    (nowLocal : DT) (uuidSrc : Nat → String) (s : Server) (fuel : Nat) :
    Except Err JTree × Heap × List Req :=
  let events : List PVal :=
    match udm_events with
    | .inl a => [.ref a]
    | .inr l => l
  if events = [] then (.error (.value "No UDM events provided"), h, [])
  else
    match deepcopyList fuel h events with
    | none => (.error .stuck, h, [])
    | some (copies, h1) =>
      match processEvents h1 copies add_missing_ids (pyIsoZ nowLocal) uuidSrc 0 with
      | (.error e, h2, _) => (.error e, h2, [])
      | (.ok _, h2, _) =>
        match readEvents fuel h2 copies with
        | none => (.error .stuck, h2, [])
        | some evs =>
          let req : Req := .importEvents evs
          if s.udmImpStatus ≥ 400 then
            (.error (.api ("Failed to ingest UDM events: " ++ s.udmImpText)), h2, [req])
          else
            let body :=
              if pyStrip s.udmImpText ≠ "" then
                if s.udmImpJsonOk then s.udmImpJson
                else .dict [("raw_response", .str s.udmImpText)]
              else .dict []
            (.ok body, h2, [req])

/-- A truthy `nextPageToken` (key present and non-empty), the condition
under which the code fetches another page. -/
def goodTok : Option String → Bool
  | some t => t ≠ ""
  | none => false

/-- A backend whose pages all succeed with a `forwarders` key, are linked
by truthy tokens, and whose last page carries no token. -/
def goodChain : List ListResp → Bool
  | [] => false
  | [p] => (p.status == 200) && p.forwarders.isSome && (p.nextPageToken == none)
  | p :: rest =>
    (p.status == 200) && p.forwarders.isSome && goodTok p.nextPageToken && goodChain rest

/-- A backend whose token-linked chain reaches a page with a non-success
status. -/
def reachesBad : List ListResp → Bool
  | [] => false
  | p :: rest =>
    !(p.status == 200) || ((p.status == 200) && goodTok p.nextPageToken && reachesBad rest)

/-- Did the call fail with `APIError`? -/
def isApiErr {α : Type} : Except Err α → Bool
  | .error (.api _) => true
  | _ => false

/-- Did the call succeed? -/
def isOk {α : Type} : Except Err α → Bool
  | .ok _ => true
  | _ => false

/-- The cache invariant: the slot is empty, or holds the id of a stored
forwarder whose display name is exactly the default display name. -/
def CacheInv (c : Client) (s : Server) : Prop :=
  ∀ id, c.cachedDefaultForwarderId = some id →
    ∃ f ∈ s.forwarders, f.displayName = c.defaultDisplayName ∧
      extract_forwarder_id f.name = .ok id

/-- All references of a value lie below `n`. -/
def valRefLT (n : Nat) : PVal → Bool
  | .str _ => true
  | .ref a => a < n

/-- All references of a value lie at or above `n`. -/
def valRefGE (n : Nat) : PVal → Bool
  | .str _ => true
  | .ref a => n ≤ a

/-- All references of a dict lie below `n`. -/
def objRefsLT (n : Nat) (o : Obj) : Bool :=
  o.all (fun kv => valRefLT n kv.2)

/-- All references of a dict lie at or above `n`. -/
def objRefsGE (n : Nat) (o : Obj) : Bool :=
  o.all (fun kv => valRefGE n kv.2)

/-- A closed heap: every stored reference points inside the heap. -/
def heapClosed (h : Heap) : Bool :=
  h.all (objRefsLT h.length)

/-- Two heaps agree on all addresses below `n`. -/
def AgreesBelow (n : Nat) (h h' : Heap) : Prop :=
  ∀ i, i < n → h'.get? i = h.get? i

/-- Every object stored at or above `n` has all references at or above
`n`. -/
def HighGE (n : Nat) (h : Heap) : Prop :=
  ∀ i, n ≤ i → ∀ o, h.get? i = some o → objRefsGE n o = true

/-- The normalised event list of a UDM call (a single dict is wrapped in
a one-element list). -/
def udmEventList : Nat ⊕ List PVal → List PVal
  | .inl a => [.ref a]
  | .inr l => l

/-- All values of a dict are string leaves. -/
def objAllStr : Obj → Bool
  | [] => true
  | (_, .str _) :: rest => objAllStr rest
  | (_, .ref _) :: _ => false

/-- The JSON tree of a flat all-string dict (a reference value, which
cannot occur under `objAllStr`, maps to an empty dict). -/
def strTreeObj : Obj → List (String × JTree)
  | [] => []
  | (k, .str s) :: rest => (k, JTree.str s) :: strTreeObj rest
  | (k, .ref _) :: rest => (k, JTree.dict []) :: strTreeObj rest

/-! ## Claim C1: the forwarder-ID codec -/

/-- C1: for every non-empty name without `/`, `extract_forwarder_id`
returns the name unchanged; for every name containing `/` it returns the
last non-empty `/`-separated segment; it fails with an
InvalidArgument-style error when the name is empty or when no non-empty
segment remains. -/
theorem C1_extract_forwarder_id_spec (name : String) :
    (name = "" →
      extract_forwarder_id name = .error (.value "Forwarder name cannot be empty")) ∧
    (name ≠ "" → pyContainsChar name '/' = false →
      extract_forwarder_id name = .ok name) ∧
    (pyContainsChar name '/' = true →
      extract_forwarder_id name =
        match ((pySplitSlash name).filter (fun s => s ≠ "")).getLast? with
        | none => .error (.value ("Invalid forwarder name format: " ++ name))
        | some s => .ok s) := by
  refine ⟨?_, ?_, ?_⟩
  · intro h
    subst h
    rfl
  · intro h1 h2
    simp only [extract_forwarder_id, if_neg h1, h2]
    rfl
  · intro h
    have hne : name ≠ "" := by
      intro he
      subst he
      exact absurd h (by decide)
    simp only [extract_forwarder_id, if_neg hne, h]
    rfl

/-- C1 witness: the codec at concrete inputs, via the claim theorem. -/
theorem C1_extract_forwarder_id_witness :
    extract_forwarder_id "" = .error (.value "Forwarder name cannot be empty") ∧
    extract_forwarder_id "abc-123" = .ok "abc-123" ∧
    extract_forwarder_id "projects/123/locations/us/instances/abc/forwarders/xyz" =
      .ok "xyz" ∧
    extract_forwarder_id "/" = .error (.value "Invalid forwarder name format: /") := by
  refine ⟨(C1_extract_forwarder_id_spec "").1 rfl, ?_, ?_, ?_⟩
  · exact (C1_extract_forwarder_id_spec "abc-123").2.1 (by decide) (by decide)
  · exact ((C1_extract_forwarder_id_spec
      "projects/123/locations/us/instances/abc/forwarders/xyz").2.2 (by decide)).trans
      (by decide)
  · exact ((C1_extract_forwarder_id_spec "/").2.2 (by decide)).trans (by decide)

/-! ## Claim C2: transparent pagination -/

/-- The first component of `lfpAfter` on a successful recursive result
whose `forwarders` key is present. -/
theorem lfpAfter_ok_some (r : ListResp) (req : Req) (nfs : List Fwd)
    (tok : Option String) (reqs : List Req) (fs : List Fwd)
    (hfs : r.forwarders = some fs) :
    (lfpAfter r req (.ok ⟨some nfs, tok⟩, reqs)).1 = .ok ⟨some (fs ++ nfs), none⟩ := by
  by_cases h : nfs = []
  · subst h
    simp [lfpAfter, hfs]
  · simp [lfpAfter, hfs, h]

/-- Step equation: a failing page. -/
theorem lfp_cons_bad (r : ListResp) (rest : List ListResp) (ps : Int)
    (pt : Option String) (hs : r.status ≠ 200) :
    list_forwarders_pages (r :: rest) ps pt =
      (.error (.api ("Failed to list forwarders: " ++ r.text)), [lfpReq ps pt]) := by
  simp only [list_forwarders_pages, if_pos hs]

/-- Step equation: a successful page with a truthy token recurses. -/
theorem lfp_cons_tok (r : ListResp) (rest : List ListResp) (ps : Int)
    (pt : Option String) (t : String) (hs : r.status = 200)
    (ht : r.nextPageToken = some t) (htne : t ≠ "") :
    list_forwarders_pages (r :: rest) ps pt =
      lfpAfter r (lfpReq ps pt) (list_forwarders_pages rest ps (some t)) := by
  simp only [list_forwarders_pages, ht, if_pos htne]
  rw [if_neg (not_not_intro hs)]

/-- Step equation: a successful page without a truthy token returns. -/
theorem lfp_cons_done (r : ListResp) (rest : List ListResp) (ps : Int)
    (pt : Option String) (hs : r.status = 200) (ht : goodTok r.nextPageToken = false) :
    list_forwarders_pages (r :: rest) ps pt =
      (.ok ⟨r.forwarders, r.nextPageToken⟩, [lfpReq ps pt]) := by
  cases htokv : r.nextPageToken with
  | none =>
    simp only [list_forwarders_pages, htokv]
    rw [if_neg (not_not_intro hs)]
  | some t =>
    rw [htokv] at ht
    simp only [goodTok] at ht
    have hte : t = "" := by simpa using ht
    subst hte
    simp only [list_forwarders_pages, htokv]
    rw [if_neg (not_not_intro hs), if_neg (by simp)]

/-- C2: over a backend of successful token-linked pages,
`list_forwarders` returns the concatenation of all pages' forwarders in
page order with no `nextPageToken` key; if the chain reaches a page with
a failure status, the whole call fails with `APIError`. -/
theorem C2_list_forwarders_pagination (pages : List ListResp) (ps : Int)
    (pt : Option String) :
    (goodChain pages = true →
      (list_forwarders_pages pages ps pt).1 =
        .ok ⟨some ((pages.map (fun p => p.forwarders.getD [])).flatten), none⟩) ∧
    (reachesBad pages = true → isApiErr (list_forwarders_pages pages ps pt).1 = true) := by
  induction pages generalizing pt with
  | nil => exact ⟨by intro h; simp [goodChain] at h, by intro h; simp [reachesBad] at h⟩
  | cons p rest ih =>
    constructor
    · intro h
      cases rest with
      | nil =>
        simp only [goodChain, Bool.and_eq_true, beq_iff_eq, Option.isSome_iff_exists] at h
        obtain ⟨⟨hs, fs, hfs⟩, htok⟩ := h
        rw [lfp_cons_done p [] ps pt hs (by rw [htok]; rfl)]
        simp [htok, hfs]
      | cons q rest' =>
        simp only [goodChain, Bool.and_eq_true, beq_iff_eq, Option.isSome_iff_exists] at h
        obtain ⟨⟨⟨hs, fs, hfs⟩, htok⟩, hchain⟩ := h
        obtain ⟨t, ht, htne⟩ : ∃ t, p.nextPageToken = some t ∧ t ≠ "" := by
          cases htokv : p.nextPageToken with
          | none => rw [htokv] at htok; simp [goodTok] at htok
          | some t =>
            rw [htokv] at htok
            simp only [goodTok] at htok
            exact ⟨t, rfl, by simpa using htok⟩
        have hrec := ((ih (some t)).1) hchain
        rw [lfp_cons_tok p (q :: rest') ps pt t hs ht htne]
        cases hx : list_forwarders_pages (q :: rest') ps (some t) with
        | mk res rs =>
          rw [hx] at hrec
          simp only at hrec
          rw [hrec]
          rw [lfpAfter_ok_some p (lfpReq ps pt)
            (((q :: rest').map (fun p => p.forwarders.getD [])).flatten) none rs fs hfs]
          simp [hfs]
    · intro h
      simp only [reachesBad, Bool.or_eq_true, Bool.and_eq_true, Bool.not_eq_true',
        beq_iff_eq] at h
      rcases h with hbad | ⟨⟨hs, htok⟩, hrest⟩
      · have hne : p.status ≠ 200 := by
          intro he
          rw [he] at hbad
          simp at hbad
        rw [lfp_cons_bad p rest ps pt hne]
        rfl
      · obtain ⟨t, ht, htne⟩ : ∃ t, p.nextPageToken = some t ∧ t ≠ "" := by
          cases htokv : p.nextPageToken with
          | none => rw [htokv] at htok; simp [goodTok] at htok
          | some t =>
            rw [htokv] at htok
            simp only [goodTok] at htok
            exact ⟨t, rfl, by simpa using htok⟩
        have hrec := ((ih (some t)).2) hrest
        rw [lfp_cons_tok p rest ps pt t hs ht htne]
        cases hx : list_forwarders_pages rest ps (some t) with
        | mk res rs =>
          rw [hx] at hrec
          cases res with
          | error e => cases e <;> simp_all [isApiErr, lfpAfter]
          | ok next => simp [isApiErr] at hrec

/-- C2 witness: a three-page backend concatenates in order and drops the
token; a chain reaching a 500 page fails with `APIError`. -/
theorem C2_list_forwarders_pagination_witness :
    goodChain
      [⟨200, "", some [⟨"n/forwarders/a", "A"⟩], some "t1"⟩,
       ⟨200, "", some [⟨"n/forwarders/b", "B"⟩, ⟨"n/forwarders/c", "C"⟩], some "t2"⟩,
       ⟨200, "", some [⟨"n/forwarders/d", "D"⟩], none⟩] = true ∧
    (list_forwarders_pages
      [⟨200, "", some [⟨"n/forwarders/a", "A"⟩], some "t1"⟩,
       ⟨200, "", some [⟨"n/forwarders/b", "B"⟩, ⟨"n/forwarders/c", "C"⟩], some "t2"⟩,
       ⟨200, "", some [⟨"n/forwarders/d", "D"⟩], none⟩] 50 none).1 =
      .ok ⟨some [⟨"n/forwarders/a", "A"⟩, ⟨"n/forwarders/b", "B"⟩,
        ⟨"n/forwarders/c", "C"⟩, ⟨"n/forwarders/d", "D"⟩], none⟩ ∧
    isApiErr (list_forwarders_pages
      [⟨200, "", some [], some "t1"⟩, ⟨500, "boom", some [], none⟩] 50 none).1 = true := by
  refine ⟨by decide, ?_, ?_⟩
  · exact ((C2_list_forwarders_pagination
      [⟨200, "", some [⟨"n/forwarders/a", "A"⟩], some "t1"⟩,
       ⟨200, "", some [⟨"n/forwarders/b", "B"⟩, ⟨"n/forwarders/c", "C"⟩], some "t2"⟩,
       ⟨200, "", some [⟨"n/forwarders/d", "D"⟩], none⟩] 50 none).1 (by decide)).trans
      (by decide)
  · exact (C2_list_forwarders_pagination
      [⟨200, "", some [], some "t1"⟩, ⟨500, "boom", some [], none⟩] 50 none).2 (by decide)

/-! ## Claim C9: pageSize clamping -/

/-- The request trace of `lfpAfter` is the page request followed by the
recursive trace. -/
theorem lfpAfter_snd (r : ListResp) (req : Req) (pr : Except Err ListResult × List Req) :
    (lfpAfter r req pr).2 = req :: pr.2 := by
  obtain ⟨res, rs⟩ := pr
  cases res with
  | error e => rfl
  | ok next =>
    simp only [lfpAfter]
    cases hnf : next.forwarders with
    | none => rfl
    | some nfs =>
      by_cases h : nfs = []
      · simp [h]
      · cases hr : r.forwarders with
        | none => simp [h, hr]
        | some fs => simp [h, hr]

/-- C9 (amended): every issued page request carries
`pageSize = min(1000, max(1, page_size))` — a value in `[1, 1000]` — when
`page_size` is non-zero, and no `pageSize` parameter at all when
`page_size = 0` (Python's falsy check skips the parameter). -/
theorem C9_page_size_clamped (pages : List ListResp) (ps : Int) (pt : Option String) :
    (∀ r ∈ (list_forwarders_pages pages ps pt).2,
      reqPageSizeParam r =
        some (if ps ≠ 0 then some (min 1000 (max 1 ps)) else none)) ∧
    (ps ≠ 0 → 1 ≤ min 1000 (max 1 ps) ∧ min 1000 (max 1 ps) ≤ 1000) := by
  constructor
  · induction pages generalizing pt with
    | nil => intro r hr; simp [list_forwarders_pages] at hr
    | cons p rest ih =>
      intro r hr
      by_cases hs : p.status = 200
      · cases htokv : p.nextPageToken with
        | none =>
          rw [lfp_cons_done p rest ps pt hs (by rw [htokv]; rfl)] at hr
          simp only [List.mem_singleton] at hr
          subst hr
          rfl
        | some t =>
          by_cases hte : t = ""
          · rw [lfp_cons_done p rest ps pt hs (by rw [htokv, hte]; rfl)] at hr
            simp only [List.mem_singleton] at hr
            subst hr
            rfl
          · rw [lfp_cons_tok p rest ps pt t hs htokv hte] at hr
            rw [lfpAfter_snd] at hr
            rcases List.mem_cons.mp hr with hh | hh
            · subst hh
              rfl
            · exact ih (some t) r hh
      · rw [lfp_cons_bad p rest ps pt hs] at hr
        simp only [List.mem_singleton] at hr
        subst hr
        rfl
  · intro _
    exact ⟨le_min (by norm_num) (le_max_left 1 ps), min_le_left _ _⟩

/-- C9 witness: with `page_size = 5000` the single page request carries
`pageSize = 1000`, which lies in `[1, 1000]`. -/
theorem C9_page_size_clamped_witness :
    reqPageSizeParam (lfpReq 5000 none) = some (some 1000) ∧
    (1 ≤ min 1000 (max 1 (5000 : Int)) ∧ min 1000 (max 1 (5000 : Int)) ≤ 1000) := by
  constructor
  · have h := (C9_page_size_clamped [⟨200, "", some [], none⟩] 5000 none).1
      (lfpReq 5000 none) (List.Mem.head _)
    exact h.trans (by decide)
  · exact (C9_page_size_clamped [⟨200, "", some [], none⟩] 5000 none).2 (by decide)

/-- C9 counterexample: with `page_size = 0` the issued request carries no
`pageSize` parameter at all, refuting "for every page_size argument ... a
pageSize clamped into [1,1000]". -/
theorem C9_page_size_counterexample :
    (list_forwarders_pages [⟨200, "", some [], none⟩] 0 none).2.map reqPageSizeParam
        = [some none] ∧
    ¬ ∃ v : Int, 1 ≤ v ∧ v ≤ 1000 ∧
      (list_forwarders_pages [⟨200, "", some [], none⟩] 0 none).2.map reqPageSizeParam
        = [some (some v)] := by
  refine ⟨rfl, ?_⟩
  rintro ⟨v, _, _, hv⟩
  have he : (list_forwarders_pages [⟨200, "", some [], none⟩] 0 none).2.map reqPageSizeParam
      = [some none] := rfl
  rw [he] at hv
  simp at hv

/-! ## Claim C4: timestamp validation happens before any request -/

/-- Two strings differ when the first starts with a character the second
does not start with. -/
theorem str_append_ne_of_head (p s t : String) (c : Char)
    (hp : p.data.head? = some c) (ht : t.data.head? ≠ some c) : p ++ s ≠ t := by
  intro he
  apply ht
  rw [← he, String.data_append]
  cases hd : p.data with
  | nil => rw [hd] at hp; simp at hp
  | cons a as =>
    rw [hd] at hp
    simp only [List.head?_cons] at hp
    simpa using hp

/-- The only errors `extract_forwarder_id` raises. -/
theorem extract_error_forms (s : String) (e : Err)
    (h : extract_forwarder_id s = .error e) :
    e = .value "Forwarder name cannot be empty" ∨
      ∃ n, e = .value ("Invalid forwarder name format: " ++ n) := by
  simp only [extract_forwarder_id] at h
  by_cases h1 : s = ""
  · rw [if_pos h1] at h
    left
    simp only [Except.error.injEq] at h
    exact h.symm
  · rw [if_neg h1] at h
    by_cases h2 : pyContainsChar s '/' = true
    · rw [if_neg (not_not_intro h2)] at h
      cases hg : ((pySplitSlash s).filter (fun x => x ≠ "")).getLast? with
      | none =>
        rw [hg] at h
        simp only [Except.error.injEq] at h
        exact Or.inr ⟨s, h.symm⟩
      | some seg => rw [hg] at h; simp at h
    · rw [if_pos h2] at h
      simp at h

/-- Errors from `_find_forwarder_by_display_name` are always `APIError`. -/
theorem find_error_forms (s : Server) (dn : String) (e : Err)
    (h : (find_forwarder_by_display_name s dn).1 = .error e) : ∃ m, e = .api m := by
  simp only [find_forwarder_by_display_name] at h
  cases hl : list_forwarders_pages (serverListPages s) 1000 none with
  | mk res rs =>
    rw [hl] at h
    cases res with
    | error e' =>
      simp only [Except.error.injEq] at h
      exact ⟨_, h.symm⟩
    | ok r => simp at h

/-- The `permWrap` keeps `APIError`s `APIError`s. -/
theorem permWrap_api (m : String) : ∃ m', permWrap (.api m) = .api m' := by
  by_cases hc : strContains (pyLowerAscii m) "permission" = true
  · exact ⟨_, by simp only [permWrap]; rw [if_pos hc]⟩
  · exact ⟨_, by simp only [permWrap]; rw [if_neg hc]⟩

/-- The only error `create_forwarder` raises. -/
theorem create_error_forms (s : Server) (dn : String) (e : Err) (s2 : Server)
    (reqs : List Req) (h : create_forwarder s dn = (.error e, s2, reqs)) :
    e = .api ("Failed to create forwarder: " ++ s.createText) := by
  simp only [create_forwarder] at h
  by_cases hcs : s.createStatus ≠ 200
  · rw [if_pos hcs] at h
    simp only [Prod.mk.injEq, Except.error.injEq] at h
    exact h.1.symm
  · rw [if_neg hcs] at h
    simp at h

/-- The only errors `get_or_create_forwarder` raises: `APIError`s, or the
two `extract_forwarder_id` `ValueError`s. -/
theorem gocf_error_forms (c : Client) (s : Server) (dn : Option String) (e : Err)
    (h : (get_or_create_forwarder c s dn).1 = .error e) :
    (∃ m, e = .api m) ∨ e = .value "Forwarder name cannot be empty" ∨
      ∃ n, e = .value ("Invalid forwarder name format: " ++ n) := by
  simp only [get_or_create_forwarder] at h
  split at h
  · simp at h
  · split at h
    · rename_i e' reqs2 heq
      simp only [Except.error.injEq] at h
      obtain ⟨m, hm⟩ := find_error_forms s _ e' (by rw [heq])
      subst hm
      obtain ⟨m', hm'⟩ := permWrap_api m
      rw [hm'] at h
      exact Or.inl ⟨m', h.symm⟩
    · split at h
      · split at h
        · simp at h
        · rename_i f reqs2 hfind hd e' heq
          simp only [Except.error.injEq] at h
          subst h
          exact Or.inr (extract_error_forms _ _ heq)
      · simp at h
    · split at h
      · rename_i e' s2 reqs3 heq
        have hce := create_error_forms s _ e' s2 reqs3 heq
        subst hce
        simp only [Except.error.injEq] at h
        obtain ⟨m', hm'⟩ := permWrap_api ("Failed to create forwarder: " ++ s.createText)
        rw [hm'] at h
        exact Or.inl ⟨m', h.symm⟩
      · split at h
        · split at h
          · simp at h
          · rename_i e' heq
            simp only [Except.error.injEq] at h
            subst h
            exact Or.inr (extract_error_forms _ _ heq)
        · simp at h

/-- The invalid-log-type message is not the collection-time message. -/
theorem log_type_msg_ne_ct (lt : String) :
    "Invalid log type: " ++ lt ++ ". Use force_log_type=True to override." ≠
      "Collection time must be same or after log entry time" := by
  rw [String.append_assoc]
  exact str_append_ne_of_head _ _ _ 'I' (by decide) (by decide)

/-- The invalid-forwarder-name message is not the collection-time
message. -/
theorem fwd_fmt_msg_ne_ct (n : String) :
    "Invalid forwarder name format: " ++ n ≠
      "Collection time must be same or after log entry time" :=
  str_append_ne_of_head _ _ _ 'I' (by decide) (by decide)

/-- C4: with both timestamps supplied and `collection_time <
log_entry_time`, `ingest_log` fails with an InvalidArgument-style error
and issues no request at all; a missing timestamp defaults to the shared
`now`, the comparison `now < now` is false, and a fully defaulted pair
can never produce the collection-time error. -/
theorem C4_ingest_log_time_check (c : Client) (s : Server) (registry : List String)
    (lt : String) (msg : String ⊕ List String) (ns : Option String)
    (labels : Option (List (String × String))) (fid : Option String)
    (force : Bool) (now : DT) :
    (∀ et ct, dtLt ct et = true →
      (∃ m, (ingest_log c s registry lt msg (some et) (some ct) ns labels fid force now).1
          = .error (.value m)) ∧
      (ingest_log c s registry lt msg (some et) (some ct) ns labels fid force now).2.2.2
        = []) ∧
    (ingest_log c s registry lt msg none none ns labels fid force now
      = ingest_log c s registry lt msg (some now) (some now) ns labels fid force now) ∧
    dtLt now now = false ∧
    (ingest_log c s registry lt msg none none ns labels fid force now).1
      ≠ .error (.value "Collection time must be same or after log entry time") := by
  have hirr : dtLt now now = false := by simp [dtLt]
  refine ⟨?_, rfl, hirr, ?_⟩
  · intro et ct hlt
    by_cases hv : ¬ is_valid_log_type registry lt = true ∧ ¬ force = true
    · constructor
      · refine ⟨"Invalid log type: " ++ lt ++ ". Use force_log_type=True to override.", ?_⟩
        simp only [ingest_log, if_pos hv]
      · simp only [ingest_log, if_pos hv]
    · constructor
      · refine ⟨"Collection time must be same or after log entry time", ?_⟩
        simp only [ingest_log, if_neg hv, Option.getD_some, hlt, if_pos]
      · simp only [ingest_log, if_neg hv, Option.getD_some, hlt, if_pos]
  · intro hcontra
    by_cases hv : ¬ is_valid_log_type registry lt = true ∧ ¬ force = true
    · simp only [ingest_log, if_pos hv, Except.error.injEq, Err.value.injEq] at hcontra
      exact log_type_msg_ne_ct lt hcontra
    · simp only [ingest_log, if_neg hv, Option.getD_none, hirr] at hcontra
      rw [if_neg (by simp [hirr])] at hcontra
      cases fid with
      | some f =>
        dsimp only at hcontra
        by_cases hst : s.logImpStatus ≠ 200
        · rw [if_pos hst] at hcontra
          simp at hcontra
        · rw [if_neg hst] at hcontra
          simp at hcontra
      | none =>
        rcases hg : get_or_create_forwarder c s none with ⟨res, c1, s1, reqs⟩
        rw [hg] at hcontra
        dsimp only at hcontra
        cases res with
        | error e =>
          simp only [Except.error.injEq] at hcontra
          have he := gocf_error_forms c s none e (by rw [hg])
          rcases he with ⟨m, hm⟩ | hm | ⟨n, hm⟩
          · rw [hm] at hcontra; cases hcontra
          · rw [hm] at hcontra
            simp only [Err.value.injEq] at hcontra
            exact absurd hcontra (by decide)
          · rw [hm] at hcontra
            simp only [Err.value.injEq] at hcontra
            exact fwd_fmt_msg_ne_ct n hcontra
        | ok f =>
          dsimp only at hcontra
          cases he : extract_forwarder_id f.name with
          | error e =>
            rw [he] at hcontra
            dsimp only at hcontra
            simp only [Except.error.injEq] at hcontra
            have hef := extract_error_forms f.name e he
            rcases hef with hm | ⟨n, hm⟩
            · rw [hm] at hcontra
              simp only [Err.value.injEq] at hcontra
              exact absurd hcontra (by decide)
            · rw [hm] at hcontra
              simp only [Err.value.injEq] at hcontra
              exact fwd_fmt_msg_ne_ct n hcontra
          | ok fwdid =>
            rw [he] at hcontra
            dsimp only at hcontra
            by_cases hst : s1.logImpStatus ≠ 200
            · rw [if_pos hst] at hcontra
              simp at hcontra
            · rw [if_neg hst] at hcontra
              simp at hcontra

/-- C4 witness: a concrete inverted pair fails with the collection-time
`ValueError` and no request; with both timestamps omitted the call with
an explicit `(now, now)` pair is identical and does not raise the
collection-time error. -/
theorem C4_ingest_log_time_check_witness :
    ((ingest_log ⟨"inst", "Wrapper-SDK-Forwarder", none⟩
        ⟨[], 200, "", 200, "", 200, "", "n/forwarders/x", 200, "", .dict [], 200, "",
          true, .dict []⟩
        [] "OKTA" (.inl "m") (some ⟨2025, 1, 2, 0, 0, 0, 0, none⟩)
        (some ⟨2025, 1, 1, 0, 0, 0, 0, none⟩) none none (some "fid") true
        ⟨2025, 1, 1, 0, 0, 0, 0, none⟩).1
      = .error (.value "Collection time must be same or after log entry time")) ∧
    ((ingest_log ⟨"inst", "Wrapper-SDK-Forwarder", none⟩
        ⟨[], 200, "", 200, "", 200, "", "n/forwarders/x", 200, "", .dict [], 200, "",
          true, .dict []⟩
        [] "OKTA" (.inl "m") (some ⟨2025, 1, 2, 0, 0, 0, 0, none⟩)
        (some ⟨2025, 1, 1, 0, 0, 0, 0, none⟩) none none (some "fid") true
        ⟨2025, 1, 1, 0, 0, 0, 0, none⟩).2.2.2 = []) ∧
    ((ingest_log ⟨"inst", "Wrapper-SDK-Forwarder", none⟩
        ⟨[], 200, "", 200, "", 200, "", "n/forwarders/x", 200, "", .dict [], 200, "",
          true, .dict []⟩
        [] "OKTA" (.inl "m") none none none none (some "fid") true
        ⟨2025, 1, 1, 0, 0, 0, 0, none⟩).1
      ≠ .error (.value "Collection time must be same or after log entry time")) := by
  refine ⟨rfl, ?_, ?_⟩
  · exact ((C4_ingest_log_time_check ⟨"inst", "Wrapper-SDK-Forwarder", none⟩
      ⟨[], 200, "", 200, "", 200, "", "n/forwarders/x", 200, "", .dict [], 200, "",
        true, .dict []⟩
      [] "OKTA" (.inl "m") none none (some "fid") true
      ⟨2025, 1, 1, 0, 0, 0, 0, none⟩).1 ⟨2025, 1, 2, 0, 0, 0, 0, none⟩
      ⟨2025, 1, 1, 0, 0, 0, 0, none⟩ (by decide)).2
  · exact (C4_ingest_log_time_check ⟨"inst", "Wrapper-SDK-Forwarder", none⟩
      ⟨[], 200, "", 200, "", 200, "", "n/forwarders/x", 200, "", .dict [], 200, "",
        true, .dict []⟩
      [] "OKTA" (.inl "m") none none (some "fid") true
      ⟨2025, 1, 1, 0, 0, 0, 0, none⟩).2.2.2

/-! ## Claim C10: an empty log list is accepted -/

/-- C10: with a forced or registered log type, consistent timestamps and
a bare forwarder id, `ingest_log` on an empty message list succeeds,
posting exactly one import request whose `inline_source.logs` is empty —
whereas `ingest_udm` rejects an empty event list with an
InvalidArgument-style error before any request. -/
theorem C10_ingest_log_empty_accepted (c : Client) (s : Server) (registry : List String)
    (lt f : String) (ns : Option String) (labels : Option (List (String × String)))
    (force : Bool) (now et ct : DT)
    (hv : is_valid_log_type registry lt = true ∨ force = true)
    (hct : dtLt ct et = false) (hf : pyContainsChar f '/' = false)
    (hst : s.logImpStatus = 200) :
    (ingest_log c s registry lt (.inr []) (some et) (some ct) ns labels (some f)
        force now).1 = .ok s.logImpJson ∧
    (ingest_log c s registry lt (.inr []) (some et) (some ct) ns labels (some f)
        force now).2.2.2
      = [.importLogs lt ⟨[], c.instanceId ++ "/forwarders/" ++ f⟩] ∧
    (∀ (h : Heap) (add : Bool) (nowL : DT) (u : Nat → String) (srv : Server) (fuel : Nat),
      ingest_udm h (.inr []) add nowL u srv fuel
        = (.error (.value "No UDM events provided"), h, [])) := by
  have hv' : ¬ (¬ is_valid_log_type registry lt = true ∧ ¬ force = true) := by
    rcases hv with h | h
    · exact fun hc => hc.1 h
    · exact fun hc => hc.2 h
  have hwire : logWire c lt (.inr []) (strftimeLog et) (strftimeLog ct) ns labels f
      = .importLogs lt ⟨[], c.instanceId ++ "/forwarders/" ++ f⟩ := by
    simp [logWire, hf]
  refine ⟨?_, ?_, fun h add nowL u srv fuel => rfl⟩
  · simp only [ingest_log, if_neg hv', Option.getD_some, hct]
    rw [if_neg (by simp)]
    rw [if_neg (not_not_intro hst)]
  · simp only [ingest_log, if_neg hv', Option.getD_some, hct]
    rw [if_neg (by simp)]
    rw [if_neg (not_not_intro hst), hwire]
    rfl

/-- C10 witness: the theorem at a concrete client, server and inputs. -/
theorem C10_ingest_log_empty_accepted_witness :
    (ingest_log ⟨"inst", "Wrapper-SDK-Forwarder", none⟩
        ⟨[], 200, "", 200, "", 200, "", "n/forwarders/x", 200, "", .dict [], 200, "",
          true, .dict []⟩
        [] "OKTA" (.inr []) (some ⟨2025, 1, 1, 0, 0, 0, 0, none⟩)
        (some ⟨2025, 1, 1, 0, 0, 0, 0, none⟩) none none (some "fid") true
        ⟨2025, 1, 1, 0, 0, 0, 0, none⟩).1 = .ok (.dict []) ∧
    (ingest_log ⟨"inst", "Wrapper-SDK-Forwarder", none⟩
        ⟨[], 200, "", 200, "", 200, "", "n/forwarders/x", 200, "", .dict [], 200, "",
          true, .dict []⟩
        [] "OKTA" (.inr []) (some ⟨2025, 1, 1, 0, 0, 0, 0, none⟩)
        (some ⟨2025, 1, 1, 0, 0, 0, 0, none⟩) none none (some "fid") true
        ⟨2025, 1, 1, 0, 0, 0, 0, none⟩).2.2.2
      = [.importLogs "OKTA" ⟨[], "inst/forwarders/fid"⟩] ∧
    ingest_udm [] (.inr []) true ⟨2025, 1, 1, 0, 0, 0, 0, some 0⟩ (fun _ => "u")
        ⟨[], 200, "", 200, "", 200, "", "n", 200, "", .dict [], 200, "", true, .dict []⟩ 3
      = (.error (.value "No UDM events provided"), [], []) := by
  have h := C10_ingest_log_empty_accepted ⟨"inst", "Wrapper-SDK-Forwarder", none⟩
    ⟨[], 200, "", 200, "", 200, "", "n/forwarders/x", 200, "", .dict [], 200, "",
      true, .dict []⟩
    [] "OKTA" "fid" none none true ⟨2025, 1, 1, 0, 0, 0, 0, none⟩
    ⟨2025, 1, 1, 0, 0, 0, 0, none⟩ ⟨2025, 1, 1, 0, 0, 0, 0, none⟩
    (Or.inr rfl) (by decide) (by decide) rfl
  exact ⟨h.1, h.2.1, h.2.2 [] true ⟨2025, 1, 1, 0, 0, 0, 0, some 0⟩ (fun _ => "u")
    ⟨[], 200, "", 200, "", 200, "", "n", 200, "", .dict [], 200, "", true, .dict []⟩ 3⟩

/-! ## Claim C7: wire timestamp format -/

/-- Digit-count bound for the decimal digits. -/
theorem decDigitsAux_len_le (fuel : Nat) : ∀ (n k : Nat), n < 10 ^ k → n ≤ fuel →
    (decDigitsAux fuel n).length ≤ k := by
  induction fuel with
  | zero =>
    intro n k _ hf
    have : n = 0 := Nat.le_zero.mp hf
    subst this
    simp [decDigitsAux]
  | succ fuel ih =>
    intro n k hn hf
    simp only [decDigitsAux]
    by_cases h0 : n = 0
    · rw [if_pos h0]
      simp
    · rw [if_neg h0]
      cases k with
      | zero =>
        simp only [pow_zero] at hn
        omega
      | succ k' =>
        rw [List.length_append]
        have hdiv : n / 10 < 10 ^ k' := by
          rw [Nat.div_lt_iff_lt_mul (by norm_num)]
          rw [pow_succ] at hn
          exact hn
        have hfuel : n / 10 ≤ fuel := by
          have hlt : n / 10 < n := Nat.div_lt_self (Nat.pos_of_ne_zero h0) (by norm_num)
          omega
        have := ih (n / 10) k' hdiv hfuel
        simp only [List.length_singleton]
        omega

/-- The `padZ n` renders exactly `n` characters for values below `10 ^ n`. -/
theorem padZ_length (n v : Nat) (hn : 1 ≤ n) (h : v < 10 ^ n) :
    (padZ n v).length = n := by
  have hs : (decStr v).length ≤ n := by
    by_cases h0 : v = 0
    · subst h0
      simpa [decStr] using hn
    · simp only [decStr, if_neg h0, String.length_mk]
      exact decDigitsAux_len_le v v n h le_rfl
  simp only [padZ]
  by_cases hlt : (decStr v).length < n
  · rw [if_pos hlt]
    rw [String.length_append, String.length_mk, List.length_replicate]
    omega
  · rw [if_neg hlt]
    omega

/-- Every `strftimeLog` string ends in the literal `Z`. -/
theorem strftimeLog_last (t : DT) : (strftimeLog t).data.getLast? = some 'Z' := by
  simp only [strftimeLog]
  rw [String.data_append, List.getLast?_append_of_ne_nil _ (by decide)]
  rfl

/-- Every request in a `list_forwarders` trace is a list request. -/
theorem lfp_trace_forms (pages : List ListResp) (ps : Int) (pt : Option String) :
    ∀ r ∈ (list_forwarders_pages pages ps pt).2, ∃ a b, r = .listFwd a b := by
  induction pages generalizing pt with
  | nil => intro r hr; simp [list_forwarders_pages] at hr
  | cons p rest ih =>
    intro r hr
    by_cases hs : p.status = 200
    · cases htokv : p.nextPageToken with
      | none =>
        rw [lfp_cons_done p rest ps pt hs (by rw [htokv]; rfl)] at hr
        simp only [List.mem_singleton] at hr
        subst hr
        exact ⟨_, _, rfl⟩
      | some t =>
        by_cases hte : t = ""
        · rw [lfp_cons_done p rest ps pt hs (by rw [htokv, hte]; rfl)] at hr
          simp only [List.mem_singleton] at hr
          subst hr
          exact ⟨_, _, rfl⟩
        · rw [lfp_cons_tok p rest ps pt t hs htokv hte, lfpAfter_snd] at hr
          rcases List.mem_cons.mp hr with hh | hh
          · subst hh
            exact ⟨_, _, rfl⟩
          · exact ih (some t) r hh
    · rw [lfp_cons_bad p rest ps pt hs] at hr
      simp only [List.mem_singleton] at hr
      subst hr
      exact ⟨_, _, rfl⟩

/-- The trace of a direct get. -/
theorem get_forwarder_trace (s : Server) (id : String) :
    (get_forwarder s id).2 = [.getFwd id] := by
  simp only [get_forwarder]
  cases hf : s.forwarders.find? (fun f => fwdHasId f id) with
  | none => rfl
  | some f =>
    dsimp only
    by_cases hg : s.getStatus ≠ 200
    · rw [if_pos hg]
    · rw [if_neg hg]

/-- The trace of a create. -/
theorem create_forwarder_trace (s : Server) (dn : String) :
    (create_forwarder s dn).2.2 = [.createFwd dn] := by
  simp only [create_forwarder]
  by_cases hc : s.createStatus ≠ 200
  · rw [if_pos hc]
  · rw [if_neg hc]

/-- Every request the warm-cache step issues is a get. -/
theorem gocfWarm_trace (c : Client) (s : Server) (b : Bool) :
    ∀ r ∈ (gocfWarm c s b).2.2, ∃ id, r = .getFwd id := by
  intro r hr
  simp only [gocfWarm] at hr
  split at hr
  · split at hr
    · rename_i cid hceq
      split at hr
      · simp at hr
      · split at hr
        · rename_i f reqs heq
          have ht : reqs = [.getFwd cid] := by
            have h2 := get_forwarder_trace s cid
            rw [heq] at h2
            exact h2
          subst ht
          split at hr <;>
            · simp only [List.mem_singleton] at hr
              exact ⟨cid, hr⟩
        · rename_i e reqs heq
          have ht : reqs = [.getFwd cid] := by
            have h2 := get_forwarder_trace s cid
            rw [heq] at h2
            exact h2
          subst ht
          simp only [List.mem_singleton] at hr
          exact ⟨cid, hr⟩
    · simp at hr
  · simp at hr

/-- Every request a display-name search issues is a list request. -/
theorem find_trace_forms (s : Server) (dn : String) :
    ∀ r ∈ (find_forwarder_by_display_name s dn).2, ∃ a b, r = .listFwd a b := by
  intro r hr
  simp only [find_forwarder_by_display_name] at hr
  rcases hl : list_forwarders_pages (serverListPages s) 1000 none with ⟨res, rs⟩
  rw [hl] at hr
  have h2 : ∀ x ∈ rs, ∃ a b, x = .listFwd a b := by
    intro x hx
    apply lfp_trace_forms (serverListPages s) 1000 none
    rw [hl]
    exact hx
  cases res with
  | error e => exact h2 r hr
  | ok rr => exact h2 r hr

/-- Every request `get_or_create_forwarder` issues is a get, list or
create — never a log or event import. -/
theorem gocf_trace_forms (c : Client) (s : Server) (dn : Option String) :
    ∀ r ∈ (get_or_create_forwarder c s dn).2.2.2,
      (∃ id, r = .getFwd id) ∨ (∃ a b, r = .listFwd a b) ∨ (∃ d, r = .createFwd d) := by
  intro r hr
  simp only [get_or_create_forwarder] at hr
  split at hr
  · rename_i f c1 reqs heq
    refine Or.inl (gocfWarm_trace c s
      (decide (pyOrStr dn c.defaultDisplayName = c.defaultDisplayName)) r ?_)
    rw [heq]
    exact hr
  · rename_i c1 reqs1 heq
    have hwarm : ∀ x ∈ reqs1, ∃ id, x = .getFwd id := by
      intro x hx
      apply gocfWarm_trace c s
        (decide (pyOrStr dn c.defaultDisplayName = c.defaultDisplayName)) x
      rw [heq]
      exact hx
    split at hr
    · rename_i e reqs2 heq2
      rcases List.mem_append.mp hr with hh | hh
      · exact Or.inl (hwarm r hh)
      · refine Or.inr (Or.inl (find_trace_forms s (pyOrStr dn c.defaultDisplayName) r ?_))
        rw [heq2]
        exact hh
    · rename_i f reqs2 heq2
      have hmem : r ∈ reqs1 ++ reqs2 := by
        split at hr
        · split at hr
          · exact hr
          · exact hr
        · exact hr
      rcases List.mem_append.mp hmem with hh | hh
      · exact Or.inl (hwarm r hh)
      · refine Or.inr (Or.inl (find_trace_forms s (pyOrStr dn c.defaultDisplayName) r ?_))
        rw [heq2]
        exact hh
    · rename_i reqs2 heq2
      have hfind : ∀ x ∈ reqs2, ∃ a b, x = .listFwd a b := by
        intro x hx
        apply find_trace_forms s (pyOrStr dn c.defaultDisplayName) x
        rw [heq2]
        exact hx
      split at hr
      · rename_i e s2 reqs3 heq3
        have ht : reqs3 = [.createFwd (pyOrStr dn c.defaultDisplayName)] := by
          have h3 := create_forwarder_trace s (pyOrStr dn c.defaultDisplayName)
          rw [heq3] at h3
          exact h3
        subst ht
        rcases List.mem_append.mp hr with hh | hh
        · rcases List.mem_append.mp hh with hg | hg
          · exact Or.inl (hwarm r hg)
          · exact Or.inr (Or.inl (hfind r hg))
        · simp only [List.mem_singleton] at hh
          exact Or.inr (Or.inr ⟨_, hh⟩)
      · rename_i nf s2 reqs3 heq3
        have ht : reqs3 = [.createFwd (pyOrStr dn c.defaultDisplayName)] := by
          have h3 := create_forwarder_trace s (pyOrStr dn c.defaultDisplayName)
          rw [heq3] at h3
          exact h3
        subst ht
        have hmem : r ∈ (reqs1 ++ reqs2) ++ [Req.createFwd (pyOrStr dn c.defaultDisplayName)] := by
          split at hr
          · split at hr
            · exact hr
            · exact hr
          · exact hr
        rcases List.mem_append.mp hmem with hh | hh
        · rcases List.mem_append.mp hh with hg | hg
          · exact Or.inl (hwarm r hg)
          · exact Or.inr (Or.inl (hfind r hg))
        · simp only [List.mem_singleton] at hh
          exact Or.inr (Or.inr ⟨_, hh⟩)

/-- The `get_or_create_forwarder` never issues a log-import request. -/
theorem gocf_no_importLogs (c : Client) (s : Server) (dn : Option String) :
    ∀ r ∈ (get_or_create_forwarder c s dn).2.2.2, ∀ l p, r ≠ .importLogs l p := by
  intro r hr l p hrl
  subst hrl
  rcases gocf_trace_forms c s dn _ hr with ⟨id, h⟩ | ⟨a, b, h⟩ | ⟨d, h⟩
  · exact Req.noConfusion h
  · exact Req.noConfusion h
  · exact Req.noConfusion h

/-- C7 (amended): every posted log entry carries
`strftime("%Y-%m-%dT%H:%M:%S.%fZ")` of the (defaulted) input datetimes —
the datetime's own calendar fields, microseconds padded to six digits,
and a literal `Z`, with no conversion to UTC; the fields coincide with
the UTC instant exactly when the datetime's UTC offset is zero or
absent. -/
theorem C7_timestamp_format (c : Client) (s : Server) (registry : List String)
    (lt : String) (msg : String ⊕ List String) (et ct : Option DT) (ns : Option String)
    (labels : Option (List (String × String))) (fid : Option String) (force : Bool)
    (now : DT) :
    (∀ r ∈ (ingest_log c s registry lt msg et ct ns labels fid force now).2.2.2,
      ∀ lt' p, r = .importLogs lt' p →
        ∀ e ∈ p.logs, e.log_entry_time = strftimeLog (et.getD now) ∧
          e.collection_time = strftimeLog (ct.getD now)) ∧
    (∀ t : DT, strftimeLog t = dtBasicStr t ++ "." ++ padZ 6 t.micro ++ "Z") ∧
    (∀ t : DT, t.micro < 1000000 → (padZ 6 t.micro).length = 6) ∧
    (∀ t : DT, (strftimeLog t).data.getLast? = some 'Z') ∧
    (∀ t : DT, t.offsetMinutes.getD 0 = 0 → instantOf t = dtFieldsMicros t) := by
  refine ⟨?_, fun t => rfl, fun t h => padZ_length 6 t.micro (by norm_num) h,
    strftimeLog_last, ?_⟩
  · have hwire : ∀ (c1 : Client) (f : String) (r : Req), r = logWire c1 lt msg
        (strftimeLog (et.getD now)) (strftimeLog (ct.getD now)) ns labels f →
        ∀ lt' p, r = .importLogs lt' p →
          ∀ e ∈ p.logs, e.log_entry_time = strftimeLog (et.getD now) ∧
            e.collection_time = strftimeLog (ct.getD now) := by
      intro c1 f r hre lt' p hrp e he
      rw [hre] at hrp
      simp only [logWire, Req.importLogs.injEq] at hrp
      rw [← hrp.2] at he
      simp only [List.mem_map] at he
      obtain ⟨m, _, hm⟩ := he
      rw [← hm]
      exact ⟨rfl, rfl⟩
    intro r hr lt' p hrp
    by_cases hv : ¬ is_valid_log_type registry lt = true ∧ ¬ force = true
    · simp only [ingest_log, if_pos hv] at hr
      simp at hr
    · simp only [ingest_log, if_neg hv] at hr
      by_cases hlt : dtLt (ct.getD now) (et.getD now) = true
      · rw [if_pos hlt] at hr
        simp at hr
      · rw [if_neg hlt] at hr
        cases fid with
        | some f =>
          dsimp only at hr
          by_cases hst : s.logImpStatus ≠ 200 <;>
            [rw [if_pos hst] at hr; rw [if_neg hst] at hr] <;>
            · simp only [List.nil_append, List.mem_singleton] at hr
              exact hwire c f r hr lt' p hrp
        | none =>
          rcases hg : get_or_create_forwarder c s none with ⟨res, c1, s1, reqs⟩
          rw [hg] at hr
          have hreqs : ∀ x ∈ reqs, ∀ l q, x ≠ .importLogs l q := by
            intro x hx
            apply gocf_no_importLogs c s none
            rw [hg]
            exact hx
          cases res with
          | error e2 =>
            dsimp only at hr
            exact absurd hrp (hreqs r hr lt' p)
          | ok f =>
            dsimp only at hr
            cases he : extract_forwarder_id f.name with
            | error e2 =>
              rw [he] at hr
              dsimp only at hr
              exact absurd hrp (hreqs r hr lt' p)
            | ok fwdid =>
              rw [he] at hr
              dsimp only at hr
              by_cases hst : s1.logImpStatus ≠ 200 <;>
                [rw [if_pos hst] at hr; rw [if_neg hst] at hr] <;>
                · rcases List.mem_append.mp hr with hh | hh
                  · exact absurd hrp (hreqs r hh lt' p)
                  · simp only [List.mem_singleton] at hh
                    exact hwire c1 fwdid r hh lt' p hrp
  · intro t h
    simp [instantOf, h]

/-- C7 witness: the theorem at a concrete run — the posted entry carries
exactly the formatted input timestamps. -/
theorem C7_timestamp_format_witness :
    ((ingest_log ⟨"inst", "Wrapper-SDK-Forwarder", none⟩
        ⟨[], 200, "", 200, "", 200, "", "n/forwarders/x", 200, "", .dict [], 200, "",
          true, .dict []⟩
        [] "OKTA" (.inl "m") (some ⟨2025, 1, 1, 5, 30, 0, 7, some 0⟩)
        (some ⟨2025, 1, 1, 6, 0, 0, 0, some 0⟩) none none (some "fid") true
        ⟨2025, 1, 1, 0, 0, 0, 0, none⟩).2.2.2
      = [.importLogs "OKTA"
          ⟨[⟨"bQ==", "2025-01-01T05:30:00.000007Z", "2025-01-01T06:00:00.000000Z",
            none, none⟩], "inst/forwarders/fid"⟩]) ∧
    (∀ e ∈ ([⟨"bQ==", "2025-01-01T05:30:00.000007Z", "2025-01-01T06:00:00.000000Z",
          none, none⟩] : List LogEntry),
        e.log_entry_time = strftimeLog ⟨2025, 1, 1, 5, 30, 0, 7, some 0⟩ ∧
        e.collection_time = strftimeLog ⟨2025, 1, 1, 6, 0, 0, 0, some 0⟩) ∧
    (padZ 6 (7 : Nat)).length = 6 ∧
    instantOf ⟨2025, 1, 1, 5, 30, 0, 7, some 0⟩
      = dtFieldsMicros ⟨2025, 1, 1, 5, 30, 0, 7, some 0⟩ := by
  refine ⟨rfl, ?_, ?_, ?_⟩
  · intro e he
    have h := (C7_timestamp_format ⟨"inst", "Wrapper-SDK-Forwarder", none⟩
      ⟨[], 200, "", 200, "", 200, "", "n/forwarders/x", 200, "", .dict [], 200, "",
        true, .dict []⟩
      [] "OKTA" (.inl "m") (some ⟨2025, 1, 1, 5, 30, 0, 7, some 0⟩)
      (some ⟨2025, 1, 1, 6, 0, 0, 0, some 0⟩) none none (some "fid") true
      ⟨2025, 1, 1, 0, 0, 0, 0, none⟩).1
    exact h _ (List.Mem.head _) "OKTA"
      ⟨[⟨"bQ==", "2025-01-01T05:30:00.000007Z", "2025-01-01T06:00:00.000000Z",
        none, none⟩], "inst/forwarders/fid"⟩ rfl e he
  · exact (C7_timestamp_format ⟨"inst", "Wrapper-SDK-Forwarder", none⟩
      ⟨[], 200, "", 200, "", 200, "", "n/forwarders/x", 200, "", .dict [], 200, "",
        true, .dict []⟩
      [] "OKTA" (.inl "m") none none none none (some "fid") true
      ⟨2025, 1, 1, 0, 0, 0, 0, none⟩).2.2.1 ⟨2025, 1, 1, 5, 30, 0, 7, some 0⟩
      (by decide)
  · exact (C7_timestamp_format ⟨"inst", "Wrapper-SDK-Forwarder", none⟩
      ⟨[], 200, "", 200, "", 200, "", "n/forwarders/x", 200, "", .dict [], 200, "",
        true, .dict []⟩
      [] "OKTA" (.inl "m") none none none none (some "fid") true
      ⟨2025, 1, 1, 0, 0, 0, 0, none⟩).2.2.2.2 ⟨2025, 1, 1, 5, 30, 0, 7, some 0⟩ rfl

/-- C7 counterexample: the aware datetime `2025-01-01T05:30+05:30` and
`2025-01-01T00:00+00:00` denote the same instant, yet the wire string
emitted for the first is its local fields with a `Z` — not the UTC
rendering of that instant — so the emitted string does not denote the
instant expressed in UTC. -/
theorem C7_timestamp_format_counterexample :
    instantOf ⟨2025, 1, 1, 5, 30, 0, 0, some 330⟩
      = instantOf ⟨2025, 1, 1, 0, 0, 0, 0, some 0⟩ ∧
    (match (ingest_log ⟨"inst", "Wrapper-SDK-Forwarder", none⟩
        ⟨[], 200, "", 200, "", 200, "", "n/forwarders/x", 200, "", .dict [], 200, "",
          true, .dict []⟩
        [] "OKTA" (.inl "m") (some ⟨2025, 1, 1, 5, 30, 0, 0, some 330⟩)
        (some ⟨2025, 1, 1, 5, 30, 0, 0, some 330⟩) none none (some "fid") true
        ⟨2025, 1, 1, 0, 0, 0, 0, none⟩).2.2.2 with
      | [.importLogs _ p] => p.logs.map (fun e => e.log_entry_time)
      | _ => []) = ["2025-01-01T05:30:00.000000Z"] ∧
    strftimeLog ⟨2025, 1, 1, 0, 0, 0, 0, some 0⟩ = "2025-01-01T00:00:00.000000Z" ∧
    ("2025-01-01T05:30:00.000000Z" : String) ≠ "2025-01-01T00:00:00.000000Z" := by
  exact ⟨by decide, rfl, by decide, by decide⟩

/-! ## Claim C5: per-endpoint success predicates -/

/-- C5 (amended): `create_forwarder`, `list_forwarders`, `get_forwarder`
and `ingest_log` succeed exactly when the response status is `200` (any
other status, 2xx included, raises `APIError`), while `ingest_udm`
succeeds exactly when the status is `< 400`; the asymmetry between the
endpoints is preserved. -/
theorem C5_status_checks :
    (∀ (s : Server) (dn : String), isOk (create_forwarder s dn).1 = (s.createStatus == 200)) ∧
    (∀ (st : Nat) (txt : String) (l : List Fwd) (ps : Int) (pt : Option String),
      isOk (list_forwarders_pages [⟨st, txt, some l, none⟩] ps pt).1 = (st == 200)) ∧
    (∀ (s : Server) (fid : String) (f : Fwd),
      s.forwarders.find? (fun g => fwdHasId g fid) = some f →
      isOk (get_forwarder s fid).1 = (s.getStatus == 200)) ∧
    (∀ (c : Client) (s : Server) (registry : List String) (lt m f : String)
        (ns : Option String) (labels : Option (List (String × String))) (et ct now : DT),
      dtLt ct et = false →
      isOk (ingest_log c s registry lt (.inl m) (some et) (some ct) ns labels (some f)
          true now).1 = (s.logImpStatus == 200)) ∧
    (∀ (s : Server) (now : DT) (u : Nat → String),
      isOk (ingest_udm [[], [("metadata", PVal.ref 0)]] (.inr [.ref 1]) false now u s 3).1
        = decide (s.udmImpStatus < 400)) := by
  refine ⟨?_, ?_, ?_, ?_, ?_⟩
  · intro s dn
    simp only [create_forwarder]
    by_cases h : s.createStatus = 200
    · rw [if_neg (not_not_intro h), beq_iff_eq.mpr h]
      rfl
    · rw [if_pos h, beq_eq_false_iff_ne.mpr h]
      rfl
  · intro st txt l ps pt
    by_cases h : st = 200
    · rw [lfp_cons_done ⟨st, txt, some l, none⟩ [] ps pt h rfl, beq_iff_eq.mpr h]
      rfl
    · rw [lfp_cons_bad ⟨st, txt, some l, none⟩ [] ps pt h, beq_eq_false_iff_ne.mpr h]
      rfl
  · intro s fid f hf
    simp only [get_forwarder, hf]
    by_cases h : s.getStatus = 200
    · rw [if_neg (not_not_intro h), beq_iff_eq.mpr h]
      rfl
    · rw [if_pos h, beq_eq_false_iff_ne.mpr h]
      rfl
  · intro c s registry lt m f ns labels et ct now hct
    simp only [ingest_log]
    rw [if_neg (by simp), Option.getD_some, Option.getD_some, if_neg (by simp [hct])]
    by_cases h : s.logImpStatus = 200
    · rw [if_neg (not_not_intro h), beq_iff_eq.mpr h]
      rfl
    · rw [if_pos h, beq_eq_false_iff_ne.mpr h]
      rfl
  · intro s now u
    have hdc : deepcopyList 3 [[], [("metadata", PVal.ref 0)]] [.ref 1]
        = some ([.ref 3], [[], [("metadata", PVal.ref 0)], [], [("metadata", PVal.ref 2)]]) :=
      rfl
    have hpe : processEvents [[], [("metadata", PVal.ref 0)], [], [("metadata", PVal.ref 2)]]
        [.ref 3] false (pyIsoZ now) u 0
        = (.ok (), [[], [("metadata", PVal.ref 0)], [("event_timestamp", .str (pyIsoZ now))],
            [("metadata", PVal.ref 2)]], 0) := rfl
    have hre : readEvents 3 [[], [("metadata", PVal.ref 0)],
        [("event_timestamp", .str (pyIsoZ now))], [("metadata", PVal.ref 2)]] [.ref 3]
        = some [.dict [("metadata", .dict [("event_timestamp", .str (pyIsoZ now))])]] := rfl
    simp only [ingest_udm]
    rw [if_neg (by simp), hdc]
    dsimp only
    rw [hpe]
    dsimp only
    rw [hre]
    dsimp only
    by_cases h : s.udmImpStatus ≥ 400
    · rw [if_pos h]
      simp only [isOk]
      have : decide (s.udmImpStatus < 400) = false := by
        simp only [decide_eq_false_iff_not]
        omega
      rw [this]
    · rw [if_neg h]
      simp only [isOk]
      have : decide (s.udmImpStatus < 400) = true := by
        simp only [decide_eq_true_eq]
        omega
      rw [this]

/-- C5 witness: the amended predicates at concrete statuses. -/
theorem C5_status_checks_witness :
    isOk (create_forwarder
        ⟨[], 200, "", 200, "", 200, "", "n/forwarders/x", 200, "", .dict [], 200, "",
          true, .dict []⟩ "D").1 = true ∧
    isOk (list_forwarders_pages [⟨500, "boom", some [], none⟩] 50 none).1 = false ∧
    isOk (ingest_udm [[], [("metadata", PVal.ref 0)]] (.inr [.ref 1]) false
        ⟨2025, 1, 1, 0, 0, 0, 0, some 0⟩ (fun _ => "u")
        ⟨[], 200, "", 200, "", 200, "", "n", 200, "", .dict [], 399, "ok", true,
          .dict []⟩ 3).1 = true := by
  refine ⟨?_, ?_, ?_⟩
  · exact (C5_status_checks.1
      ⟨[], 200, "", 200, "", 200, "", "n/forwarders/x", 200, "", .dict [], 200, "",
        true, .dict []⟩ "D").trans (by decide)
  · exact (C5_status_checks.2.1 500 "boom" [] 50 none).trans (by decide)
  · exact (C5_status_checks.2.2.2.2
      ⟨[], 200, "", 200, "", 200, "", "n", 200, "", .dict [], 399, "ok", true, .dict []⟩
      ⟨2025, 1, 1, 0, 0, 0, 0, some 0⟩ (fun _ => "u")).trans (by decide)

/-- C5 counterexample: at status 201 — inside `[200, 299]` — the list
endpoint raises `APIError` (refuting "[200,299] is success" for it),
while the UDM import at 201 succeeds; the endpoints really are
asymmetric, but at `== 200` versus `< 400`. -/
theorem C5_status_checks_counterexample :
    isApiErr (list_forwarders_pages [⟨201, "x", some [], none⟩] 50 none).1 = true ∧
    isOk (ingest_udm [[], [("metadata", PVal.ref 0)]] (.inr [.ref 1]) false
        ⟨2025, 1, 1, 0, 0, 0, 0, some 0⟩ (fun _ => "u")
        ⟨[], 200, "", 200, "", 200, "", "n", 200, "", .dict [], 201, "ok", true,
          .dict []⟩ 3).1 = true := by
  exact ⟨rfl, rfl⟩

/-! ## Claim C3: the default-forwarder cache invariant -/

/-- A client with an empty slot satisfies the invariant against any
server. -/
theorem cacheInv_cleared (c : Client) (s : Server) :
    CacheInv { c with cachedDefaultForwarderId := none } s := by
  intro id h
  cases h

/-- The invariant survives growing the server's forwarder store. -/
theorem cacheInv_mono (c : Client) (s : Server) (l : List Fwd) (h : CacheInv c s) :
    CacheInv c { s with forwarders := s.forwarders ++ l } := by
  intro id hid
  obtain ⟨f, hf, hd, he⟩ := h id hid
  exact ⟨f, List.mem_append_left l hf, hd, he⟩

/-- The warm-cache step leaves the client as it was or clears the slot. -/
theorem gocfWarm_client_cases (c : Client) (s : Server) (b : Bool) :
    (gocfWarm c s b).2.1 = c ∨
      (gocfWarm c s b).2.1 = { c with cachedDefaultForwarderId := none } := by
  simp only [gocfWarm]
  split
  · split
    · split
      · exact Or.inl rfl
      · split
        · split
          · exact Or.inl rfl
          · exact Or.inr rfl
        · exact Or.inr rfl
    · exact Or.inl rfl
  · exact Or.inl rfl

/-- A warm-cache hit leaves the client untouched. -/
theorem gocfWarm_some_client (c : Client) (s : Server) (b : Bool) (f : Fwd)
    (c1 : Client) (reqs : List Req) (h : gocfWarm c s b = (some f, c1, reqs)) :
    c1 = c := by
  simp only [gocfWarm] at h
  split at h
  · split at h
    · split at h
      · simp at h
      · split at h
        · split at h
          · simp only [Prod.mk.injEq] at h
            exact h.2.1.symm
          · simp at h
        · simp at h
    · simp at h
  · simp at h

/-- A successful display-name search returns a stored forwarder with that
display name. -/
theorem find_found (s : Server) (dn : String) (f : Fwd)
    (h : (find_forwarder_by_display_name s dn).1 = .ok (some f)) :
    f ∈ s.forwarders ∧ f.displayName = dn := by
  simp only [find_forwarder_by_display_name, serverListPages] at h
  by_cases hl : s.listStatus = 200
  · rw [lfp_cons_done ⟨s.listStatus, s.listText, some s.forwarders, none⟩ [] 1000 none hl
      rfl] at h
    dsimp only at h
    simp only [Option.getD_some, Except.ok.injEq] at h
    constructor
    · exact List.mem_of_find?_eq_some h
    · have := List.find?_some h
      simpa using this
  · rw [lfp_cons_bad ⟨s.listStatus, s.listText, some s.forwarders, none⟩ [] 1000 none hl]
      at h
    simp at h

/-- A successful create stores and returns the server-named forwarder. -/
theorem create_ok_forms (s : Server) (dn : String) (nf : Fwd) (s2 : Server)
    (reqs : List Req) (h : create_forwarder s dn = (.ok nf, s2, reqs)) :
    nf = ⟨s.createName, dn⟩ ∧ s2 = { s with forwarders := s.forwarders ++ [nf] } := by
  simp only [create_forwarder] at h
  by_cases hc : s.createStatus ≠ 200
  · rw [if_pos hc] at h
    simp at h
  · rw [if_neg hc] at h
    simp only [Prod.mk.injEq, Except.ok.injEq] at h
    obtain ⟨h1, h2, _⟩ := h
    subst h1
    exact ⟨rfl, h2.symm⟩

/-- A failed create leaves the server untouched. -/
theorem create_error_state (s : Server) (dn : String) (e : Err) (s2 : Server)
    (reqs : List Req) (h : create_forwarder s dn = (.error e, s2, reqs)) : s2 = s := by
  simp only [create_forwarder] at h
  by_cases hc : s.createStatus ≠ 200
  · rw [if_pos hc] at h
    simp only [Prod.mk.injEq] at h
    exact h.2.1.symm
  · rw [if_neg hc] at h
    simp at h

/-- C3: the cached slot is empty or holds the id of a stored forwarder
named exactly the default display name (`CacheInv`), and
`get_or_create_forwarder` (i) preserves the invariant on every
execution, (ii) never writes the slot for an explicit non-empty
non-default name, (iii) on a default request with a truthy (non-empty)
cached id returns the directly fetched forwarder exactly when its
display name matches the default, (iv)/(v) on a display-name mismatch or
a get failure clears the slot and continues exactly as the cold
(empty-cache) run, with the extra get request in front, (vi) coerces an
explicit empty name to the default name (Python `display_name or
default`), and (vii) with the falsy cached id `""` skips the warm step,
issuing no get request at all. -/
theorem C3_cache_invariant (c : Client) (s : Server) (dn : Option String) :
    (CacheInv c s →
      CacheInv (get_or_create_forwarder c s dn).2.1
        (get_or_create_forwarder c s dn).2.2.1) ∧
    (∀ d, dn = some d → d ≠ "" → d ≠ c.defaultDisplayName →
      (get_or_create_forwarder c s dn).2.1.cachedDefaultForwarderId
        = c.cachedDefaultForwarderId) ∧
    (∀ cid f, pyOrStr dn c.defaultDisplayName = c.defaultDisplayName →
      c.cachedDefaultForwarderId = some cid → cid ≠ "" →
      (get_forwarder s cid).1 = .ok f → f.displayName = c.defaultDisplayName →
      get_or_create_forwarder c s dn = (.ok f, c, s, [.getFwd cid])) ∧
    (∀ cid f, pyOrStr dn c.defaultDisplayName = c.defaultDisplayName →
      c.cachedDefaultForwarderId = some cid → cid ≠ "" →
      (get_forwarder s cid).1 = .ok f → f.displayName ≠ c.defaultDisplayName →
      get_or_create_forwarder c s dn =
        ((get_or_create_forwarder { c with cachedDefaultForwarderId := none } s dn).1,
         (get_or_create_forwarder { c with cachedDefaultForwarderId := none } s dn).2.1,
         (get_or_create_forwarder { c with cachedDefaultForwarderId := none } s dn).2.2.1,
         .getFwd cid ::
           (get_or_create_forwarder
             { c with cachedDefaultForwarderId := none } s dn).2.2.2)) ∧
    (∀ cid e, pyOrStr dn c.defaultDisplayName = c.defaultDisplayName →
      c.cachedDefaultForwarderId = some cid → cid ≠ "" →
      (get_forwarder s cid).1 = .error e →
      get_or_create_forwarder c s dn =
        ((get_or_create_forwarder { c with cachedDefaultForwarderId := none } s dn).1,
         (get_or_create_forwarder { c with cachedDefaultForwarderId := none } s dn).2.1,
         (get_or_create_forwarder { c with cachedDefaultForwarderId := none } s dn).2.2.1,
         .getFwd cid ::
           (get_or_create_forwarder
             { c with cachedDefaultForwarderId := none } s dn).2.2.2)) ∧
    (get_or_create_forwarder c s (some "") = get_or_create_forwarder c s none) ∧
    (pyOrStr dn c.defaultDisplayName = c.defaultDisplayName →
      c.cachedDefaultForwarderId = some "" →
      ∀ r ∈ (get_or_create_forwarder c s dn).2.2.2, ∀ id, r ≠ .getFwd id) := by
  refine ⟨?_, ?_, ?_, ?_, ?_, ?_, ?_⟩
  · -- (i) invariant preservation
    intro hinv
    rcases hw : gocfWarm c s (decide (pyOrStr dn c.defaultDisplayName = c.defaultDisplayName))
      with ⟨of, c1, reqs1⟩
    have hc1 : c1 = c ∨ c1 = { c with cachedDefaultForwarderId := none } := by
      have h2 := gocfWarm_client_cases c s
        (decide (pyOrStr dn c.defaultDisplayName = c.defaultDisplayName))
      rw [hw] at h2
      exact h2
    have hc1inv : CacheInv c1 s := by
      rcases hc1 with h | h
      · rw [h]; exact hinv
      · rw [h]; exact cacheInv_cleared c s
    have hc1dn : c1.defaultDisplayName = c.defaultDisplayName := by
      rcases hc1 with h | h <;> rw [h]
    simp only [get_or_create_forwarder]
    rw [hw]
    cases of with
    | some f => exact hc1inv
    | none =>
      dsimp only
      rcases hf : find_forwarder_by_display_name s (pyOrStr dn c.defaultDisplayName)
        with ⟨fres, reqs2⟩
      cases fres with
      | error e => exact hc1inv
      | ok fopt =>
        cases fopt with
        | some f =>
          dsimp only
          by_cases hisd :
              decide (pyOrStr dn c.defaultDisplayName = c.defaultDisplayName) = true
          · rw [if_pos hisd]
            cases he : extract_forwarder_id f.name with
            | ok fid =>
              dsimp only
              intro id hid
              simp only [Option.some.injEq] at hid
              obtain ⟨hmem, hdisp⟩ := find_found s (pyOrStr dn c.defaultDisplayName) f
                (by rw [hf])
              refine ⟨f, hmem, ?_, ?_⟩
              · rw [hdisp]
                show pyOrStr dn c.defaultDisplayName = c1.defaultDisplayName
                rw [hc1dn]
                exact of_decide_eq_true hisd
              · rw [← hid]
                exact he
            | error e => exact hc1inv
          · rw [if_neg hisd]
            exact hc1inv
        | none =>
          dsimp only
          rcases hcr : create_forwarder s (pyOrStr dn c.defaultDisplayName)
            with ⟨cres, s2, reqs3⟩
          cases cres with
          | error e =>
            dsimp only
            rw [create_error_state s _ e s2 reqs3 hcr]
            exact hc1inv
          | ok nf =>
            obtain ⟨hnf, hs2⟩ := create_ok_forms s _ nf s2 reqs3 hcr
            dsimp only
            by_cases hisd :
                decide (pyOrStr dn c.defaultDisplayName = c.defaultDisplayName) = true
            · rw [if_pos hisd]
              cases he : extract_forwarder_id nf.name with
              | ok fid =>
                dsimp only
                intro id hid
                simp only [Option.some.injEq] at hid
                rw [hs2]
                refine ⟨nf, List.mem_append_right _ (List.mem_singleton.mpr rfl), ?_, ?_⟩
                · rw [hnf]
                  show pyOrStr dn c.defaultDisplayName = c1.defaultDisplayName
                  rw [hc1dn]
                  exact of_decide_eq_true hisd
                · rw [← hid]
                  exact he
              | error e =>
                dsimp only
                rw [hs2]
                exact cacheInv_mono c1 s [nf] hc1inv
            · rw [if_neg hisd]
              dsimp only
              rw [hs2]
              exact cacheInv_mono c1 s [nf] hc1inv
  · -- (ii) explicit non-empty non-default requests never write the slot
    intro d hdm hd0 hdne
    subst hdm
    have htar : pyOrStr (some d) c.defaultDisplayName = d := by
      simp [pyOrStr, hd0]
    have hisd : decide (pyOrStr (some d) c.defaultDisplayName = c.defaultDisplayName)
        = false := by
      rw [htar]
      exact decide_eq_false hdne
    simp only [get_or_create_forwarder]
    rw [hisd, show gocfWarm c s false = (none, c, []) from rfl]
    dsimp only
    rcases hf : find_forwarder_by_display_name s (pyOrStr (some d) c.defaultDisplayName)
      with ⟨fres, reqs2⟩
    cases fres with
    | error e => rfl
    | ok fopt =>
      cases fopt with
      | some f =>
        dsimp only
        rw [if_neg Bool.false_ne_true]
      | none =>
        dsimp only
        rcases hcr : create_forwarder s (pyOrStr (some d) c.defaultDisplayName)
          with ⟨cres, s2, reqs3⟩
        cases cres with
        | error e => rfl
        | ok nf =>
          dsimp only
          rw [if_neg Bool.false_ne_true]
  · -- (iii) warm-cache hit with a truthy cached id
    intro cid f hdn hcache hc0 hok hdisp
    have hpair : get_forwarder s cid = (.ok f, [.getFwd cid]) := by
      rw [← Prod.mk.eta (p := get_forwarder s cid), hok, get_forwarder_trace]
    have hisd : decide (pyOrStr dn c.defaultDisplayName = c.defaultDisplayName) = true :=
      decide_eq_true hdn
    have hwarm : gocfWarm c s true = (some f, c, [.getFwd cid]) := by
      simp only [gocfWarm]
      rw [if_pos trivial, hcache]
      dsimp only
      rw [if_neg hc0, hpair]
      dsimp only
      rw [if_pos hdisp]
    simp only [get_or_create_forwarder]
    rw [hisd, hwarm]
  · -- (iv) warm-cache display-name mismatch: clear and run cold
    intro cid f hdn hcache hc0 hok hdisp
    have hpair : get_forwarder s cid = (.ok f, [.getFwd cid]) := by
      rw [← Prod.mk.eta (p := get_forwarder s cid), hok, get_forwarder_trace]
    have hisd : decide (pyOrStr dn c.defaultDisplayName = c.defaultDisplayName) = true :=
      decide_eq_true hdn
    have hwarm : gocfWarm c s true
        = (none, { c with cachedDefaultForwarderId := none }, [.getFwd cid]) := by
      simp only [gocfWarm]
      rw [if_pos trivial, hcache]
      dsimp only
      rw [if_neg hc0, hpair]
      dsimp only
      rw [if_neg hdisp]
    have hwcold : gocfWarm { c with cachedDefaultForwarderId := none } s true
        = (none, { c with cachedDefaultForwarderId := none }, []) := rfl
    simp only [get_or_create_forwarder]
    dsimp only
    rw [hisd, hwarm, hwcold]
    dsimp only
    rcases hf : find_forwarder_by_display_name s (pyOrStr dn c.defaultDisplayName)
      with ⟨fres, reqs2⟩
    cases fres with
    | error e => simp
    | ok fopt =>
      cases fopt with
      | some g =>
        dsimp only
        cases he : extract_forwarder_id g.name with
        | ok fid => simp
        | error e => simp
      | none =>
        dsimp only
        rcases hcr : create_forwarder s (pyOrStr dn c.defaultDisplayName)
          with ⟨cres, s2, reqs3⟩
        cases cres with
        | error e => simp
        | ok nf =>
          dsimp only
          cases he : extract_forwarder_id nf.name with
          | ok fid => simp
          | error e => simp
  · -- (v) warm-cache get failure: clear and run cold
    intro cid e hdn hcache hc0 herr
    have hpair : get_forwarder s cid = (.error e, [.getFwd cid]) := by
      rw [← Prod.mk.eta (p := get_forwarder s cid), herr, get_forwarder_trace]
    have hisd : decide (pyOrStr dn c.defaultDisplayName = c.defaultDisplayName) = true :=
      decide_eq_true hdn
    have hwarm : gocfWarm c s true
        = (none, { c with cachedDefaultForwarderId := none }, [.getFwd cid]) := by
      simp only [gocfWarm]
      rw [if_pos trivial, hcache]
      dsimp only
      rw [if_neg hc0, hpair]
    have hwcold : gocfWarm { c with cachedDefaultForwarderId := none } s true
        = (none, { c with cachedDefaultForwarderId := none }, []) := rfl
    simp only [get_or_create_forwarder]
    dsimp only
    rw [hisd, hwarm, hwcold]
    dsimp only
    rcases hf : find_forwarder_by_display_name s (pyOrStr dn c.defaultDisplayName)
      with ⟨fres, reqs2⟩
    cases fres with
    | error e2 => simp
    | ok fopt =>
      cases fopt with
      | some g =>
        dsimp only
        cases he2 : extract_forwarder_id g.name with
        | ok fid => simp
        | error e2 => simp
      | none =>
        dsimp only
        rcases hcr : create_forwarder s (pyOrStr dn c.defaultDisplayName)
          with ⟨cres, s2, reqs3⟩
        cases cres with
        | error e2 => simp
        | ok nf =>
          dsimp only
          cases he2 : extract_forwarder_id nf.name with
          | ok fid => simp
          | error e2 => simp
  · -- (vi) the empty-string name coerces to the default name
    rfl
  · -- (vii) a falsy cached id skips the warm get: no get request at all
    intro hdn hcache r hr id hrid
    subst hrid
    have hisd : decide (pyOrStr dn c.defaultDisplayName = c.defaultDisplayName) = true :=
      decide_eq_true hdn
    have hwarm : gocfWarm c s true = (none, c, []) := by
      simp only [gocfWarm]
      rw [if_pos trivial, hcache]
      dsimp only
      rw [if_pos rfl]
    simp only [get_or_create_forwarder] at hr
    rw [hisd, hwarm] at hr
    dsimp only at hr
    split at hr
    · rename_i e reqs2 heq2
      rw [List.nil_append] at hr
      obtain ⟨a, b, hab⟩ := find_trace_forms s (pyOrStr dn c.defaultDisplayName)
        (.getFwd id) (by rw [heq2]; exact hr)
      exact Req.noConfusion hab
    · rename_i f reqs2 heq2
      have hmem : Req.getFwd id ∈ ([] : List Req) ++ reqs2 := by
        split at hr
        · split at hr
          · exact hr
          · exact hr
        · exact hr
      rw [List.nil_append] at hmem
      obtain ⟨a, b, hab⟩ := find_trace_forms s (pyOrStr dn c.defaultDisplayName)
        (.getFwd id) (by rw [heq2]; exact hmem)
      exact Req.noConfusion hab
    · rename_i reqs2 heq2
      split at hr
      · rename_i e2 s2 reqs3 heq3
        have ht : reqs3 = [.createFwd (pyOrStr dn c.defaultDisplayName)] := by
          have h3 := create_forwarder_trace s (pyOrStr dn c.defaultDisplayName)
          rw [heq3] at h3
          exact h3
        subst ht
        rw [List.nil_append] at hr
        rcases List.mem_append.mp hr with hh | hh
        · obtain ⟨a, b, hab⟩ := find_trace_forms s (pyOrStr dn c.defaultDisplayName)
            (.getFwd id) (by rw [heq2]; exact hh)
          exact Req.noConfusion hab
        · simp only [List.mem_singleton] at hh
          exact Req.noConfusion hh
      · rename_i nf s2 reqs3 heq3
        have ht : reqs3 = [.createFwd (pyOrStr dn c.defaultDisplayName)] := by
          have h3 := create_forwarder_trace s (pyOrStr dn c.defaultDisplayName)
          rw [heq3] at h3
          exact h3
        subst ht
        have hmem : Req.getFwd id ∈ (([] : List Req) ++ reqs2) ++
            [Req.createFwd (pyOrStr dn c.defaultDisplayName)] := by
          split at hr
          · split at hr
            · exact hr
            · exact hr
          · exact hr
        rw [List.nil_append] at hmem
        rcases List.mem_append.mp hmem with hh | hh
        · obtain ⟨a, b, hab⟩ := find_trace_forms s (pyOrStr dn c.defaultDisplayName)
            (.getFwd id) (by rw [heq2]; exact hh)
          exact Req.noConfusion hab
        · simp only [List.mem_singleton] at hh
          exact Req.noConfusion hh

/-- C3 witness: a cold run against an empty store creates the default
forwarder and leaves a slot satisfying the invariant; a warm cache whose
forwarder still carries the default name is returned from a single get. -/
theorem C3_cache_invariant_witness :
    (get_or_create_forwarder ⟨"inst", "Wrapper-SDK-Forwarder", none⟩
        ⟨[], 200, "", 200, "", 200, "", "proj/forwarders/new1", 200, "", .dict [], 200,
          "", true, .dict []⟩ none).2.1
      = ⟨"inst", "Wrapper-SDK-Forwarder", some "new1"⟩ ∧
    CacheInv
      (get_or_create_forwarder ⟨"inst", "Wrapper-SDK-Forwarder", none⟩
        ⟨[], 200, "", 200, "", 200, "", "proj/forwarders/new1", 200, "", .dict [], 200,
          "", true, .dict []⟩ none).2.1
      (get_or_create_forwarder ⟨"inst", "Wrapper-SDK-Forwarder", none⟩
        ⟨[], 200, "", 200, "", 200, "", "proj/forwarders/new1", 200, "", .dict [], 200,
          "", true, .dict []⟩ none).2.2.1 ∧
    get_or_create_forwarder ⟨"inst", "Wrapper-SDK-Forwarder", some "x"⟩
        ⟨[⟨"proj/forwarders/x", "Wrapper-SDK-Forwarder"⟩], 200, "", 200, "", 200, "",
          "cn", 200, "", .dict [], 200, "", true, .dict []⟩ none
      = (.ok ⟨"proj/forwarders/x", "Wrapper-SDK-Forwarder"⟩,
         ⟨"inst", "Wrapper-SDK-Forwarder", some "x"⟩,
         ⟨[⟨"proj/forwarders/x", "Wrapper-SDK-Forwarder"⟩], 200, "", 200, "", 200, "",
           "cn", 200, "", .dict [], 200, "", true, .dict []⟩, [.getFwd "x"]) := by
  refine ⟨rfl, ?_, ?_⟩
  · exact (C3_cache_invariant ⟨"inst", "Wrapper-SDK-Forwarder", none⟩
      ⟨[], 200, "", 200, "", 200, "", "proj/forwarders/new1", 200, "", .dict [], 200,
        "", true, .dict []⟩ none).1 (fun id h => nomatch h)
  · exact (C3_cache_invariant ⟨"inst", "Wrapper-SDK-Forwarder", some "x"⟩
      ⟨[⟨"proj/forwarders/x", "Wrapper-SDK-Forwarder"⟩], 200, "", 200, "", 200, "",
        "cn", 200, "", .dict [], 200, "", true, .dict []⟩ none).2.2.1 "x"
      ⟨"proj/forwarders/x", "Wrapper-SDK-Forwarder"⟩ rfl rfl (by decide) rfl rfl

/-! ## Claim C6: `ingest_udm` never mutates the caller's events

The proof: `deepcopy` only appends fresh objects whose references point at
fresh addresses; the back-fill loop writes only at such fresh addresses;
hence the heap is unchanged below its original length, and reading any
value whose references lie below that length yields the same tree. -/

/-- The empty tail of a heap trivially satisfies `HighGE` at its own
length. -/
theorem highGE_init (h : Heap) : HighGE h.length h := by
  intro i hi o ho
  have := List.get?_eq_none.mpr hi
  rw [this] at ho
  cases ho

/-- A heap extension agrees below the original length. -/
theorem agreesBelow_append (h : Heap) (t : List Obj) :
    AgreesBelow h.length h (h ++ t) := by
  intro i hi
  exact List.get?_append hi

/-- The relation `AgreesBelow` composes. -/
theorem agreesBelow_trans (n : Nat) (h1 h2 h3 : Heap)
    (a : AgreesBelow n h1 h2) (b : AgreesBelow n h2 h3) : AgreesBelow n h1 h3 := by
  intro i hi
  rw [b i hi, a i hi]

/-- Copying a dict's fields only extends the heap, provided the copier
does. -/
theorem deepcopyObjWith_extends (cp : Heap → PVal → Option (PVal × Heap))
    (hcp : ∀ h v r, cp h v = some r → ∃ t, r.2 = h ++ t) :
    ∀ (o : Obj) (h : Heap) (r : Obj × Heap), deepcopyObjWith cp h o = some r →
      ∃ t, r.2 = h ++ t := by
  intro o
  induction o with
  | nil =>
    intro h r hr
    simp only [deepcopyObjWith, Option.some.injEq] at hr
    exact ⟨[], by rw [← hr, List.append_nil]⟩
  | cons kv rest ih =>
    intro h r hr
    simp only [deepcopyObjWith, Option.bind_eq_some, Option.map_eq_some'] at hr
    obtain ⟨p, hp, q, hq, hqr⟩ := hr
    obtain ⟨t1, ht1⟩ := hcp h kv.2 p hp
    obtain ⟨t2, ht2⟩ := ih p.2 q hq
    refine ⟨t1 ++ t2, ?_⟩
    rw [← hqr]
    dsimp only
    rw [ht2, ht1, List.append_assoc]

/-- The `deepcopy` of one value only extends the heap. -/
theorem deepcopyVal_extends (n : Nat) :
    ∀ (h : Heap) (v : PVal) (r : PVal × Heap), deepcopyVal n h v = some r →
      ∃ t, r.2 = h ++ t := by
  induction n with
  | zero =>
    intro h v r hr
    cases v with
    | str s =>
      simp only [deepcopyVal, Option.some.injEq] at hr
      exact ⟨[], by rw [← hr, List.append_nil]⟩
    | ref a => simp [deepcopyVal] at hr
  | succ n ih =>
    intro h v r hr
    cases v with
    | str s =>
      simp only [deepcopyVal, Option.some.injEq] at hr
      exact ⟨[], by rw [← hr, List.append_nil]⟩
    | ref a =>
      simp only [deepcopyVal, Option.bind_eq_some, Option.map_eq_some'] at hr
      obtain ⟨o, _, p, hp, hpr⟩ := hr
      obtain ⟨t, ht⟩ := deepcopyObjWith_extends (deepcopyVal n) ih o h p hp
      refine ⟨t ++ [p.1], ?_⟩
      rw [← hpr]
      dsimp only
      rw [ht, List.append_assoc]

/-- The `deepcopy` of the event list only extends the heap. -/
theorem deepcopyList_extends (n : Nat) :
    ∀ (l : List PVal) (h : Heap) (r : List PVal × Heap), deepcopyList n h l = some r →
      ∃ t, r.2 = h ++ t := by
  intro l
  induction l with
  | nil =>
    intro h r hr
    simp only [deepcopyList, Option.some.injEq] at hr
    exact ⟨[], by rw [← hr, List.append_nil]⟩
  | cons v rest ih =>
    intro h r hr
    simp only [deepcopyList, Option.bind_eq_some, Option.map_eq_some'] at hr
    obtain ⟨p, hp, q, hq, hqr⟩ := hr
    obtain ⟨t1, ht1⟩ := deepcopyVal_extends n h v p hp
    obtain ⟨t2, ht2⟩ := ih p.2 q hq
    refine ⟨t1 ++ t2, ?_⟩
    rw [← hqr]
    dsimp only
    rw [ht2, ht1, List.append_assoc]

/-- Copying a dict's fields: all result references are fresh and
freshness of high heap entries is preserved, provided the copier
guarantees the same. -/
theorem deepcopyObjWith_ge (N : Nat) (cp : Heap → PVal → Option (PVal × Heap))
    (hext : ∀ h v r, cp h v = some r → ∃ t, r.2 = h ++ t)
    (hcp : ∀ h v r, N ≤ h.length → HighGE N h → cp h v = some r →
      valRefGE N r.1 = true ∧ HighGE N r.2) :
    ∀ (o : Obj) (h : Heap) (r : Obj × Heap), N ≤ h.length → HighGE N h →
      deepcopyObjWith cp h o = some r →
      objRefsGE N r.1 = true ∧ HighGE N r.2 := by
  intro o
  induction o with
  | nil =>
    intro h r hN hH hr
    simp only [deepcopyObjWith, Option.some.injEq] at hr
    rw [← hr]
    exact ⟨rfl, hH⟩
  | cons kv rest ih =>
    intro h r hN hH hr
    simp only [deepcopyObjWith, Option.bind_eq_some, Option.map_eq_some'] at hr
    obtain ⟨p, hp, q, hq, hqr⟩ := hr
    obtain ⟨hv1, hH1⟩ := hcp h kv.2 p hN hH hp
    obtain ⟨t1, ht1⟩ := hext h kv.2 p hp
    have hN1 : N ≤ p.2.length := by
      rw [ht1, List.length_append]
      omega
    obtain ⟨ho2, hH2⟩ := ih p.2 q hN1 hH1 hq
    rw [← hqr]
    constructor
    · simp only [objRefsGE, List.all_cons, Bool.and_eq_true]
      exact ⟨hv1, ho2⟩
    · exact hH2

/-- The `deepcopy` of one value: the result reference is fresh and freshness
of high heap entries is preserved. -/
theorem deepcopyVal_ge (N : Nat) :
    ∀ (n : Nat) (h : Heap) (v : PVal) (r : PVal × Heap), N ≤ h.length → HighGE N h →
      deepcopyVal n h v = some r →
      valRefGE N r.1 = true ∧ HighGE N r.2 := by
  intro n
  induction n with
  | zero =>
    intro h v r hN hH hr
    cases v with
    | str s =>
      simp only [deepcopyVal, Option.some.injEq] at hr
      rw [← hr]
      exact ⟨rfl, hH⟩
    | ref a => simp [deepcopyVal] at hr
  | succ n ih =>
    intro h v r hN hH hr
    cases v with
    | str s =>
      simp only [deepcopyVal, Option.some.injEq] at hr
      rw [← hr]
      exact ⟨rfl, hH⟩
    | ref a =>
      simp only [deepcopyVal, Option.bind_eq_some, Option.map_eq_some'] at hr
      obtain ⟨o, _, p, hp, hpr⟩ := hr
      obtain ⟨hoGE, hH1⟩ := deepcopyObjWith_ge N (deepcopyVal n) (deepcopyVal_extends n)
        ih o h p hN hH hp
      obtain ⟨t, ht⟩ := deepcopyObjWith_extends (deepcopyVal n) (deepcopyVal_extends n)
        o h p hp
      have hN1 : N ≤ p.2.length := by
        rw [ht, List.length_append]
        omega
      rw [← hpr]
      constructor
      · simpa [valRefGE] using hN1
      · intro i hi o' ho'
        by_cases hip : i < p.2.length
        · rw [List.get?_append hip] at ho'
          exact hH1 i hi o' ho'
        · rw [List.get?_append_right (by omega)] at ho'
          cases hq : i - p.2.length with
          | zero =>
            rw [hq] at ho'
            simp only [List.get?] at ho'
            cases ho'
            exact hoGE
          | succ m =>
            rw [hq] at ho'
            simp [List.get?] at ho'

/-- The `deepcopy` of the event list: all copies have fresh references. -/
theorem deepcopyList_ge (N : Nat) (n : Nat) :
    ∀ (l : List PVal) (h : Heap) (r : List PVal × Heap), N ≤ h.length → HighGE N h →
      deepcopyList n h l = some r →
      (∀ v ∈ r.1, valRefGE N v = true) ∧ HighGE N r.2 := by
  intro l
  induction l with
  | nil =>
    intro h r hN hH hr
    simp only [deepcopyList, Option.some.injEq] at hr
    rw [← hr]
    exact ⟨fun v hv => (nomatch hv), hH⟩
  | cons v rest ih =>
    intro h r hN hH hr
    simp only [deepcopyList, Option.bind_eq_some, Option.map_eq_some'] at hr
    obtain ⟨p, hp, q, hq, hqr⟩ := hr
    obtain ⟨hv1, hH1⟩ := deepcopyVal_ge N n h v p hN hH hp
    obtain ⟨t, ht⟩ := deepcopyVal_extends n h v p hp
    have hN1 : N ≤ p.2.length := by
      rw [ht, List.length_append]
      omega
    obtain ⟨hvs, hH2⟩ := ih p.2 q hN1 hH1 hq
    rw [← hqr]
    refine ⟨?_, hH2⟩
    intro w hw
    rcases List.mem_cons.mp hw with hwv | hwr
    · rw [hwv]
      exact hv1
    · exact hvs w hwr

/-- The `objSet` with a string value keeps all references high. -/
theorem objRefsGE_objSet (N : Nat) (o : Obj) (key s : String)
    (h : objRefsGE N o = true) : objRefsGE N (objSet o key (.str s)) = true := by
  simp only [objSet]
  by_cases hc : (o.find? (fun kv => kv.1 = key)).isSome
  · rw [if_pos hc]
    simp only [objRefsGE, List.all_eq_true] at h ⊢
    intro kv hkv
    obtain ⟨kv0, hkv0, hkveq⟩ := List.mem_map.mp hkv
    by_cases he : kv0.1 = key
    · rw [← hkveq, if_pos he]
      rfl
    · rw [← hkveq, if_neg he]
      exact h kv0 hkv0
  · rw [if_neg hc]
    simp only [objRefsGE, List.all_eq_true, List.mem_append] at h ⊢
    rintro kv (hkv | hkv)
    · exact h kv hkv
    · simp only [List.mem_singleton] at hkv
      rw [hkv]
      rfl

/-- A reference fetched out of a high dict is high. -/
theorem objGet_ge (N : Nat) (o : Obj) (key : String) (a : Nat)
    (ho : objRefsGE N o = true) (hg : objGet o key = some (.ref a)) : N ≤ a := by
  simp only [objGet, Option.map_eq_some'] at hg
  obtain ⟨kv, hfind, hkv⟩ := hg
  have hmem := List.mem_of_find?_eq_some hfind
  simp only [objRefsGE, List.all_eq_true] at ho
  have := ho kv hmem
  rw [hkv] at this
  simpa [valRefGE] using this

/-- Setting a high address with a high dict preserves `HighGE`. -/
theorem highGE_set (N : Nat) (h : Heap) (i : Nat) (o : Obj)
    (hh : HighGE N h) (ho : objRefsGE N o = true) : HighGE N (h.set i o) := by
  intro j hj o' ho'
  by_cases hij : i = j
  · subst hij
    rw [List.get?_set_eq] at ho'
    cases hg : h.get? i with
    | none => rw [hg] at ho'; cases ho'
    | some o0 =>
      rw [hg] at ho'
      have h2 : o = o' := Option.some.inj ho'
      rw [← h2]
      exact ho
  · rw [List.get?_set_ne _ _ hij] at ho'
    exact hh j hj o' ho'

/-- Setting a high address leaves the low heap untouched. -/
theorem agreesBelow_set (N : Nat) (h : Heap) (i : Nat) (o : Obj) (hi : N ≤ i) :
    AgreesBelow N h (h.set i o) := by
  intro j hj
  exact List.get?_set_ne _ _ (by omega)

/-- The back-fill loop only writes at high addresses: the heap below `N`
is unchanged and high entries keep their references high. -/
theorem processEvents_agrees (N : Nat) (ts : String) (u : Nat → String) (add : Bool) :
    ∀ (events : List PVal) (h : Heap) (k : Nat),
      (∀ v ∈ events, valRefGE N v = true) → HighGE N h →
      AgreesBelow N h (processEvents h events add ts u k).2.1 ∧
        HighGE N (processEvents h events add ts u k).2.1 := by
  intro events
  induction events with
  | nil =>
    intro h k _ hH
    exact ⟨fun i _ => rfl, hH⟩
  | cons e rest ih =>
    intro h k hv hH
    cases e with
    | str s =>
      simp only [processEvents]
      exact ⟨fun i _ => rfl, hH⟩
    | ref a =>
      have hNa : N ≤ a := by
        have := hv _ (List.mem_cons_self _ _)
        simpa [valRefGE] using this
      have hvrest : ∀ v ∈ rest, valRefGE N v = true :=
        fun v hvm => hv v (List.mem_cons_of_mem _ hvm)
      simp only [processEvents]
      cases hga : h.get? a with
      | none =>
        dsimp only
        exact ⟨fun i _ => rfl, hH⟩
      | some obj =>
        dsimp only
        have hobjGE : objRefsGE N obj = true := hH a hNa obj hga
        cases hgm : objGet obj "metadata" with
        | none =>
          dsimp only
          exact ⟨fun i _ => rfl, hH⟩
        | some mv =>
          cases mv with
          | str s2 =>
            dsimp only
            exact ⟨fun i _ => rfl, hH⟩
          | ref ma =>
            dsimp only
            have hNma : N ≤ ma := objGet_ge N obj "metadata" ma hobjGE hgm
            cases hgmo : h.get? ma with
            | none =>
              dsimp only
              exact ⟨fun i _ => rfl, hH⟩
            | some mobj =>
              have hmGE : objRefsGE N mobj = true := hH ma hNma mobj hgmo
              have cont : ∀ (newObj : Obj) (k' : Nat), objRefsGE N newObj = true →
                  AgreesBelow N h
                    (processEvents (h.set ma newObj) rest add ts u k').2.1 ∧
                    HighGE N (processEvents (h.set ma newObj) rest add ts u k').2.1 := by
                intro newObj k' hnew
                have hH' : HighGE N (h.set ma newObj) := highGE_set N h ma newObj hH hnew
                have hA' : AgreesBelow N h (h.set ma newObj) :=
                  agreesBelow_set N h ma newObj hNma
                have hrec := ih (h.set ma newObj) k' hvrest hH'
                exact ⟨agreesBelow_trans N h _ _ hA' hrec.1, hrec.2⟩
              dsimp only
              have hm1 : objRefsGE N (if (objGet mobj "event_timestamp").isNone then
                  objSet mobj "event_timestamp" (.str ts) else mobj) = true := by
                by_cases hc : (objGet mobj "event_timestamp").isNone
                · rw [if_pos hc]
                  exact objRefsGE_objSet N mobj _ _ hmGE
                · rw [if_neg hc]
                  exact hmGE
              by_cases hc2 : add = true ∧ (objGet (if (objGet mobj
                  "event_timestamp").isNone then objSet mobj "event_timestamp" (.str ts)
                  else mobj) "id").isNone = true
              · rw [if_pos hc2]
                exact cont _ _ (objRefsGE_objSet N _ _ _ hm1)
              · rw [if_neg hc2]
                exact cont _ _ hm1

/-- Reading a dict field-by-field only depends on the reader's action on
the stored values. -/
theorem readObjWith_congr (rd rd' : PVal → Option JTree) (o : Obj)
    (h : ∀ kv ∈ o, rd kv.2 = rd' kv.2) : readObjWith rd o = readObjWith rd' o := by
  induction o with
  | nil => rfl
  | cons kv rest ih =>
    simp only [readObjWith]
    rw [h kv (List.mem_cons_self _ _), ih (fun kv' hkv' => h kv' (List.mem_cons_of_mem _ hkv'))]

/-- Reading a low value is unaffected by changes above the closed
heap. -/
theorem readTree_agrees (h0 : Heap) (hc : heapClosed h0 = true) :
    ∀ (fuel : Nat) (h' : Heap), AgreesBelow h0.length h0 h' →
      ∀ v, valRefLT h0.length v = true → readTree fuel h' v = readTree fuel h0 v := by
  intro fuel
  induction fuel with
  | zero =>
    intro h' _ v _
    cases v with
    | str s => rfl
    | ref a => rfl
  | succ n ih =>
    intro h' hA v hvlt
    cases v with
    | str s => rfl
    | ref a =>
      have ha : a < h0.length := by simpa [valRefLT] using hvlt
      simp only [readTree]
      rw [hA a ha]
      cases hga : h0.get? a with
      | none => rfl
      | some o =>
        have hmem : o ∈ h0 := List.get?_mem hga
        have holt : objRefsLT h0.length o = true := by
          simp only [heapClosed, List.all_eq_true] at hc
          exact hc o hmem
        have hco : readObjWith (readTree n h') o = readObjWith (readTree n h0) o := by
          apply readObjWith_congr
          intro kv hkv
          apply ih h' hA
          simp only [objRefsLT, List.all_eq_true] at holt
          exact holt kv hkv
        dsimp only [Option.bind]
        rw [hco]

/-- C6: `ingest_udm` never mutates the caller's events: over any closed
heap, every value reachable from the input list reads back to exactly
the same deep tree after the call — whatever the outcome, including
validation failures partway through and back-filled copies. -/
theorem C6_ingest_udm_no_mutation (h0 : Heap) (input : Nat ⊕ List PVal) (add : Bool)
    (nowL : DT) (u : Nat → String) (s : Server) (fuel : Nat)
    (hc : heapClosed h0 = true)
    (hin : ∀ v ∈ udmEventList input, valRefLT h0.length v = true) :
    ∀ v ∈ udmEventList input, ∀ n,
      readTree n (ingest_udm h0 input add nowL u s fuel).2.1 v = readTree n h0 v := by
  have hdcA : ∀ (events copies : List PVal) (h1 : Heap),
      deepcopyList fuel h0 events = some (copies, h1) →
      AgreesBelow h0.length h0 (processEvents h1 copies add (pyIsoZ nowL) u 0).2.1 := by
    intro events copies h1 hdc
    obtain ⟨t, ht⟩ := deepcopyList_extends fuel events h0 (copies, h1) hdc
    dsimp only at ht
    have hA1 : AgreesBelow h0.length h0 h1 := by
      rw [ht]
      exact agreesBelow_append h0 t
    obtain ⟨hcopies, hH1⟩ := deepcopyList_ge h0.length fuel events h0 (copies, h1)
      le_rfl (highGE_init h0) hdc
    have hpe := processEvents_agrees h0.length (pyIsoZ nowL) u add copies h1 0 hcopies hH1
    exact agreesBelow_trans _ _ _ _ hA1 hpe.1
  have key : AgreesBelow h0.length h0 (ingest_udm h0 input add nowL u s fuel).2.1 := by
    cases input with
    | inl a =>
      simp only [ingest_udm]
      rw [if_neg (by simp)]
      cases hdc : deepcopyList fuel h0 [PVal.ref a] with
      | none => exact fun i _ => rfl
      | some pr =>
        obtain ⟨copies, h1⟩ := pr
        dsimp only
        have hA2 := hdcA [PVal.ref a] copies h1 hdc
        rcases hpe : processEvents h1 copies add (pyIsoZ nowL) u 0 with ⟨res, h2, k⟩
        rw [hpe] at hA2
        dsimp only at hA2
        cases res with
        | error e => exact hA2
        | ok uu =>
          dsimp only
          cases hre : readEvents fuel h2 copies with
          | none => exact hA2
          | some evs =>
            dsimp only
            by_cases hst : s.udmImpStatus ≥ 400
            · rw [if_pos hst]
              exact hA2
            · rw [if_neg hst]
              exact hA2
    | inr l =>
      simp only [ingest_udm]
      by_cases hnil : l = []
      · rw [if_pos hnil]
        exact fun i _ => rfl
      · rw [if_neg hnil]
        cases hdc : deepcopyList fuel h0 l with
        | none => exact fun i _ => rfl
        | some pr =>
          obtain ⟨copies, h1⟩ := pr
          dsimp only
          have hA2 := hdcA l copies h1 hdc
          rcases hpe : processEvents h1 copies add (pyIsoZ nowL) u 0 with ⟨res, h2, k⟩
          rw [hpe] at hA2
          dsimp only at hA2
          cases res with
          | error e => exact hA2
          | ok uu =>
            dsimp only
            cases hre : readEvents fuel h2 copies with
            | none => exact hA2
            | some evs =>
              dsimp only
              by_cases hst : s.udmImpStatus ≥ 400
              · rw [if_pos hst]
                exact hA2
              · rw [if_neg hst]
                exact hA2
  intro v hv n
  exact readTree_agrees h0 hc n _ key v (hin v hv)

/-- C6 witness: a concrete closed heap with one event whose metadata is
back-filled — the caller's event reads back unchanged after the call. -/
theorem C6_ingest_udm_no_mutation_witness :
    readTree 5 ((ingest_udm [[("k", PVal.str "v")], [("metadata", PVal.ref 0)]]
        (.inr [.ref 1]) true ⟨2025, 1, 1, 5, 30, 0, 0, some 330⟩ (fun _ => "uuid-1")
        ⟨[], 200, "", 200, "", 200, "", "n", 200, "", .dict [], 200, "ok", true,
          .dict []⟩ 3).2.1) (.ref 1)
      = readTree 5 [[("k", PVal.str "v")], [("metadata", PVal.ref 0)]] (.ref 1) := by
  have h := C6_ingest_udm_no_mutation [[("k", PVal.str "v")], [("metadata", PVal.ref 0)]]
    (.inr [.ref 1]) true ⟨2025, 1, 1, 5, 30, 0, 0, some 330⟩ (fun _ => "uuid-1")
    ⟨[], 200, "", 200, "", 200, "", "n", 200, "", .dict [], 200, "ok", true, .dict []⟩ 3
    (by decide)
    (by
      intro v hv
      cases hv with
      | head => decide
      | tail _ hv2 => cases hv2)
  exact h (.ref 1) (List.Mem.head _) 5

/-! ## Claim C8: the event-timestamp back-fill -/

theorem find_append_none {α : Type} (p : α → Bool) (l1 l2 : List α)
    (h : l1.find? p = none) : (l1 ++ l2).find? p = l2.find? p := by
  induction l1 with
  | nil => rfl
  | cons a t ih =>
    rw [List.cons_append]
    cases hpa : p a with
    | true =>
      rw [List.find?_cons_of_pos _ hpa] at h
      exact absurd h (by simp)
    | false =>
      rw [List.find?_cons_of_neg _ (by simp [hpa])] at h
      rw [List.find?_cons_of_neg _ (by simp [hpa])]
      exact ih h

theorem objGet_none_find (o : Obj) (k : String) (h : objGet o k = none) :
    o.find? (fun kv => kv.1 = k) = none := by
  simp only [objGet, Option.map_eq_none'] at h
  exact h

theorem strTreeObj_find_none (o : Obj) (k : String)
    (h : o.find? (fun kv => kv.1 = k) = none) :
    (strTreeObj o).find? (fun kv => kv.1 = k) = none := by
  induction o with
  | nil => rfl
  | cons a t ih =>
    obtain ⟨k1, v⟩ := a
    by_cases hk : k1 = k
    · rw [List.find?_cons_of_pos _ (by simp [hk])] at h
      exact absurd h (by simp)
    · rw [List.find?_cons_of_neg _ (by simp [hk])] at h
      cases v with
      | str s =>
        simp only [strTreeObj]
        rw [List.find?_cons_of_neg _ (by simp [hk])]
        exact ih h
      | ref a =>
        simp only [strTreeObj]
        rw [List.find?_cons_of_neg _ (by simp [hk])]
        exact ih h

theorem strTreeObj_find_str (o : Obj) (k ts : String) (hall : objAllStr o = true)
    (h : objGet o k = some (PVal.str ts)) :
    (strTreeObj o).find? (fun kv => kv.1 = k) = some (k, JTree.str ts) := by
  induction o with
  | nil => simp [objGet] at h
  | cons a t ih =>
    obtain ⟨k1, v⟩ := a
    cases v with
    | ref a => simp [objAllStr] at hall
    | str s =>
      simp only [objAllStr] at hall
      by_cases hk : k1 = k
      · simp only [objGet] at h
        rw [List.find?_cons_of_pos _ (by simp [hk])] at h
        simp at h
        subst hk
        simp only [strTreeObj]
        rw [List.find?_cons_of_pos _ (by simp)]
        rw [h]
      · simp only [objGet] at h
        rw [List.find?_cons_of_neg _ (by simp [hk])] at h
        simp only [strTreeObj]
        rw [List.find?_cons_of_neg _ (by simp [hk])]
        exact ih hall h

theorem strTreeObj_append (o1 o2 : Obj) :
    strTreeObj (o1 ++ o2) = strTreeObj o1 ++ strTreeObj o2 := by
  induction o1 with
  | nil => rfl
  | cons a t ih =>
    obtain ⟨k, v⟩ := a
    cases v <;> simp [strTreeObj, ih]

theorem objAllStr_append_one (o : Obj) (k s : String) (h : objAllStr o = true) :
    objAllStr (o ++ [(k, PVal.str s)]) = true := by
  induction o with
  | nil => rfl
  | cons a t ih =>
    obtain ⟨k1, v⟩ := a
    cases v with
    | str s1 =>
      simp only [objAllStr] at h
      simpa [objAllStr] using ih h
    | ref a => simp [objAllStr] at h

theorem deepcopyObjWith_allStr (cp : Heap → PVal → Option (PVal × Heap))
    (hcp : ∀ (hp : Heap) (s : String), cp hp (.str s) = some (.str s, hp)) :
    ∀ (o : Obj) (hp : Heap), objAllStr o = true → deepcopyObjWith cp hp o = some (o, hp) := by
  intro o
  induction o with
  | nil => intro hp _; rfl
  | cons a t ih =>
    intro hp hall
    obtain ⟨k, v⟩ := a
    cases v with
    | ref a => simp [objAllStr] at hall
    | str s =>
      simp only [objAllStr] at hall
      simp [deepcopyObjWith, hcp, ih hp hall]

theorem deepcopyObjWith_flat (cp : Heap → PVal → Option (PVal × Heap))
    (hcp : ∀ (hp : Heap) (s : String), cp hp (.str s) = some (.str s, hp))
    (key : String) (v : PVal) :
    ∀ (ex : Obj), objAllStr ex = true → ∀ (hp : Heap),
      deepcopyObjWith cp hp (ex ++ [(key, v)]) =
        (cp hp v).map (fun p => (ex ++ [(key, p.1)], p.2)) := by
  intro ex
  induction ex with
  | nil =>
    intro _ hp
    cases hcv : cp hp v with
    | none => simp [deepcopyObjWith, hcv]
    | some p => simp [deepcopyObjWith, hcv]
  | cons a t ih =>
    intro hall hp
    obtain ⟨k1, v1⟩ := a
    cases v1 with
    | ref a => simp [objAllStr] at hall
    | str s =>
      simp only [objAllStr] at hall
      simp only [List.cons_append, deepcopyObjWith, hcp, List.append_eq]
      dsimp only [Option.bind]
      rw [ih hall hp]
      cases hcv : cp hp v <;> simp [hcv]

theorem readObjWith_allStr (rd : PVal → Option JTree)
    (hrd : ∀ s, rd (.str s) = some (.str s)) :
    ∀ (o : Obj), objAllStr o = true → readObjWith rd o = some (strTreeObj o) := by
  intro o
  induction o with
  | nil => intro _; rfl
  | cons a t ih =>
    intro hall
    obtain ⟨k, v⟩ := a
    cases v with
    | ref a => simp [objAllStr] at hall
    | str s =>
      simp only [objAllStr] at hall
      simp [readObjWith, strTreeObj, hrd, ih hall]

theorem readObjWith_flat (rd : PVal → Option JTree)
    (hrd : ∀ s, rd (.str s) = some (.str s)) (key : String) (v : PVal) :
    ∀ (ex : Obj), objAllStr ex = true →
      readObjWith rd (ex ++ [(key, v)]) =
        (rd v).map (fun t => strTreeObj ex ++ [(key, t)]) := by
  intro ex
  induction ex with
  | nil =>
    intro _
    cases hrv : rd v <;> simp [readObjWith, hrv, strTreeObj]
  | cons a t ih =>
    intro hall
    obtain ⟨k1, v1⟩ := a
    cases v1 with
    | ref a => simp [objAllStr] at hall
    | str s =>
      simp only [objAllStr] at hall
      simp only [List.cons_append, readObjWith, hrd, List.append_eq]
      rw [ih hall]
      cases hrv : rd v <;> simp [hrv, strTreeObj]

/-- C8 (amended): over a flat single-event heap (`mf` the metadata dict,
`ex` the event's other fields, all string-valued), `ingest_udm` submits
exactly one copied event; its `metadata.event_timestamp` is back-filled
with `datetime.now().astimezone().isoformat().replace("+00:00", "Z")` when
the key is absent — a string that ends in `Z` only when the local offset
renders as `+00:00` — and an already-present string timestamp is submitted
unchanged. -/
theorem C8_event_timestamp_backfill (mf ex : Obj) (now : DT) (u : Nat → String)
    (s : Server) (fuel : Nat)
    (hmf : objAllStr mf = true) (hex : objAllStr ex = true)
    (hexm : objGet ex "metadata" = none) :
    ∃ mt : List (String × JTree),
      (ingest_udm [mf, ex ++ [("metadata", PVal.ref 0)]] (Sum.inl 1) false now u s
          (fuel + 2)).2.2
        = [Req.importEvents [JTree.dict (strTreeObj ex ++ [("metadata", JTree.dict mt)])]]
      ∧ (objGet mf "event_timestamp" = none →
          treeGet (JTree.dict mt) "event_timestamp" = some (JTree.str (pyIsoZ now)))
      ∧ (∀ ts0 : String, objGet mf "event_timestamp" = some (PVal.str ts0) →
          treeGet (JTree.dict mt) "event_timestamp" = some (JTree.str ts0)) := by
  have hcp : ∀ (n : Nat) (hp : Heap) (s1 : String),
      deepcopyVal n hp (.str s1) = some (.str s1, hp) := by
    intro n hp s1
    simp [deepcopyVal]
  have hrdt : ∀ (n : Nat) (hp : Heap) (s1 : String),
      readTree n hp (.str s1) = some (.str s1) := by
    intro n hp s1
    simp [readTree]
  have hdl : deepcopyList (fuel + 2) [mf, ex ++ [("metadata", PVal.ref 0)]] [PVal.ref 1]
      = some ([PVal.ref 3],
          [mf, ex ++ [("metadata", PVal.ref 0)], mf, ex ++ [("metadata", PVal.ref 2)]]) := by
    have h1 : deepcopyObjWith (deepcopyVal fuel) [mf, ex ++ [("metadata", PVal.ref 0)]] mf
        = some (mf, [mf, ex ++ [("metadata", PVal.ref 0)]]) :=
      deepcopyObjWith_allStr _ (hcp fuel) mf _ hmf
    have h2 : deepcopyVal (fuel + 1) [mf, ex ++ [("metadata", PVal.ref 0)]] (PVal.ref 0)
        = some (PVal.ref 2, [mf, ex ++ [("metadata", PVal.ref 0)], mf]) := by
      simp [deepcopyVal, h1]
    have h3 : deepcopyObjWith (deepcopyVal (fuel + 1)) [mf, ex ++ [("metadata", PVal.ref 0)]]
        (ex ++ [("metadata", PVal.ref 0)])
        = some (ex ++ [("metadata", PVal.ref 2)],
            [mf, ex ++ [("metadata", PVal.ref 0)], mf]) := by
      rw [deepcopyObjWith_flat _ (hcp (fuel + 1)) "metadata" (PVal.ref 0) ex hex]
      rw [h2]
      rfl
    have h4 : deepcopyVal (fuel + 2) [mf, ex ++ [("metadata", PVal.ref 0)]] (PVal.ref 1)
        = some (PVal.ref 3, [mf, ex ++ [("metadata", PVal.ref 0)], mf,
            ex ++ [("metadata", PVal.ref 2)]]) := by
      simp [deepcopyVal, h3]
    simp [deepcopyList, h4]
  have hgm : objGet (ex ++ [("metadata", PVal.ref 2)]) "metadata" = some (PVal.ref 2) := by
    unfold objGet
    rw [find_append_none _ ex _ (objGet_none_find ex _ hexm)]
    rfl
  rcases hcase : objGet mf "event_timestamp" with _ | v
  · have hset : objSet mf "event_timestamp" (PVal.str (pyIsoZ now))
        = mf ++ [("event_timestamp", PVal.str (pyIsoZ now))] := by
      simp [objSet, objGet_none_find mf _ hcase]
    have hpe : processEvents [mf, ex ++ [("metadata", PVal.ref 0)], mf,
          ex ++ [("metadata", PVal.ref 2)]] [PVal.ref 3] false (pyIsoZ now) u 0
        = (.ok (), [mf, ex ++ [("metadata", PVal.ref 0)],
            mf ++ [("event_timestamp", PVal.str (pyIsoZ now))],
            ex ++ [("metadata", PVal.ref 2)]], 0) := by
      simp [processEvents, hgm, hcase, hset, List.set]
    have hall1 : objAllStr (mf ++ [("event_timestamp", PVal.str (pyIsoZ now))]) = true :=
      objAllStr_append_one mf _ _ hmf
    have hr2 : readTree (fuel + 1) [mf, ex ++ [("metadata", PVal.ref 0)],
          mf ++ [("event_timestamp", PVal.str (pyIsoZ now))],
          ex ++ [("metadata", PVal.ref 2)]] (PVal.ref 2)
        = some (JTree.dict (strTreeObj (mf ++ [("event_timestamp",
            PVal.str (pyIsoZ now))]))) := by
      rw [readTree]
      simp [readObjWith_allStr _ (hrdt fuel _) _ hall1]
    have hr3 : readTree (fuel + 2) [mf, ex ++ [("metadata", PVal.ref 0)],
          mf ++ [("event_timestamp", PVal.str (pyIsoZ now))],
          ex ++ [("metadata", PVal.ref 2)]] (PVal.ref 3)
        = some (JTree.dict (strTreeObj ex ++ [("metadata",
            JTree.dict (strTreeObj (mf ++ [("event_timestamp",
              PVal.str (pyIsoZ now))])))])) := by
      have hro := readObjWith_flat (readTree (fuel + 1) [mf,
          ex ++ [("metadata", PVal.ref 0)],
          mf ++ [("event_timestamp", PVal.str (pyIsoZ now))],
          ex ++ [("metadata", PVal.ref 2)]])
        (hrdt (fuel + 1) _) "metadata" (PVal.ref 2) ex hex
      rw [hr2] at hro
      rw [readTree]
      simp [hro]
    have hre : readEvents (fuel + 2) [mf, ex ++ [("metadata", PVal.ref 0)],
          mf ++ [("event_timestamp", PVal.str (pyIsoZ now))],
          ex ++ [("metadata", PVal.ref 2)]] [PVal.ref 3]
        = some [JTree.dict (strTreeObj ex ++ [("metadata",
            JTree.dict (strTreeObj (mf ++ [("event_timestamp",
              PVal.str (pyIsoZ now))])))])] := by
      simp [readEvents, hr3]
    refine ⟨strTreeObj (mf ++ [("event_timestamp", PVal.str (pyIsoZ now))]), ?_, ?_, ?_⟩
    · simp only [ingest_udm]
      rw [if_neg (by simp)]
      rw [hdl]
      dsimp only
      rw [hpe]
      dsimp only
      rw [hre]
      dsimp only
      by_cases hst : s.udmImpStatus ≥ 400
      · rw [if_pos hst]
      · rw [if_neg hst]
    · intro _
      simp only [treeGet]
      rw [strTreeObj_append]
      rw [find_append_none _ _ _ (strTreeObj_find_none mf _ (objGet_none_find mf _ hcase))]
      rfl
    · intro ts0 h1
      exact Option.noConfusion h1
  · have hpe : processEvents [mf, ex ++ [("metadata", PVal.ref 0)], mf,
          ex ++ [("metadata", PVal.ref 2)]] [PVal.ref 3] false (pyIsoZ now) u 0
        = (.ok (), [mf, ex ++ [("metadata", PVal.ref 0)], mf,
            ex ++ [("metadata", PVal.ref 2)]], 0) := by
      simp [processEvents, hgm, hcase, List.set]
    have hr2 : readTree (fuel + 1) [mf, ex ++ [("metadata", PVal.ref 0)], mf,
          ex ++ [("metadata", PVal.ref 2)]] (PVal.ref 2)
        = some (JTree.dict (strTreeObj mf)) := by
      rw [readTree]
      simp [readObjWith_allStr _ (hrdt fuel _) _ hmf]
    have hr3 : readTree (fuel + 2) [mf, ex ++ [("metadata", PVal.ref 0)], mf,
          ex ++ [("metadata", PVal.ref 2)]] (PVal.ref 3)
        = some (JTree.dict (strTreeObj ex ++ [("metadata",
            JTree.dict (strTreeObj mf))])) := by
      have hro := readObjWith_flat (readTree (fuel + 1) [mf,
          ex ++ [("metadata", PVal.ref 0)], mf, ex ++ [("metadata", PVal.ref 2)]])
        (hrdt (fuel + 1) _) "metadata" (PVal.ref 2) ex hex
      rw [hr2] at hro
      rw [readTree]
      simp [hro]
    have hre : readEvents (fuel + 2) [mf, ex ++ [("metadata", PVal.ref 0)], mf,
          ex ++ [("metadata", PVal.ref 2)]] [PVal.ref 3]
        = some [JTree.dict (strTreeObj ex ++ [("metadata",
            JTree.dict (strTreeObj mf))])] := by
      simp [readEvents, hr3]
    refine ⟨strTreeObj mf, ?_, ?_, ?_⟩
    · simp only [ingest_udm]
      rw [if_neg (by simp)]
      rw [hdl]
      dsimp only
      rw [hpe]
      dsimp only
      rw [hre]
      dsimp only
      by_cases hst : s.udmImpStatus ≥ 400
      · rw [if_pos hst]
      · rw [if_neg hst]
    · intro h1
      exact Option.noConfusion h1
    · intro ts0 h1
      have hv := Option.some.inj h1
      subst hv
      simp only [treeGet]
      rw [strTreeObj_find_str mf _ ts0 hmf hcase]
      rfl

/-- C8 witness: a concrete event whose metadata lacks `event_timestamp` —
the theorem applies and yields the back-filled submission. -/
theorem C8_event_timestamp_backfill_witness :
    ∃ mt : List (String × JTree),
      (ingest_udm [[("k", PVal.str "v")],
          [("a", PVal.str "b")] ++ [("metadata", PVal.ref 0)]] (Sum.inl 1) false
          ⟨2025, 1, 1, 5, 30, 0, 0, some 330⟩ (fun _ => "u")
          ⟨[], 200, "", 200, "", 200, "", "n", 200, "", .dict [], 200, "ok", true, .dict []⟩
          (0 + 2)).2.2
        = [Req.importEvents [JTree.dict (strTreeObj [("a", PVal.str "b")]
            ++ [("metadata", JTree.dict mt)])]]
      ∧ (objGet [("k", PVal.str "v")] "event_timestamp" = none →
          treeGet (JTree.dict mt) "event_timestamp"
            = some (JTree.str (pyIsoZ ⟨2025, 1, 1, 5, 30, 0, 0, some 330⟩)))
      ∧ (∀ ts0 : String,
          objGet [("k", PVal.str "v")] "event_timestamp" = some (PVal.str ts0) →
          treeGet (JTree.dict mt) "event_timestamp" = some (JTree.str ts0)) :=
  C8_event_timestamp_backfill [("k", PVal.str "v")] [("a", PVal.str "b")]
    ⟨2025, 1, 1, 5, 30, 0, 0, some 330⟩ (fun _ => "u")
    ⟨[], 200, "", 200, "", 200, "", "n", 200, "", .dict [], 200, "ok", true, .dict []⟩ 0
    (by decide) (by decide) (by decide)

/-- C8 counterexample: with a local offset of +05:30 the back-filled
`metadata.event_timestamp` is `2025-01-01T05:30:00+05:30`, which does not
end with `Z`, refuting the claimed unconditional `Z` suffix. -/
theorem C8_event_timestamp_backfill_counterexample :
    (ingest_udm [[], [("metadata", PVal.ref 0)]] (Sum.inl 1) false
        ⟨2025, 1, 1, 5, 30, 0, 0, some 330⟩ (fun _ => "u")
        ⟨[], 200, "", 200, "", 200, "", "n", 200, "", .dict [], 200, "ok", true,
          .dict []⟩ 2).2.2
      = [Req.importEvents [JTree.dict [("metadata",
          JTree.dict [("event_timestamp", JTree.str "2025-01-01T05:30:00+05:30")])]]]
    ∧ "2025-01-01T05:30:00+05:30".data.getLast? ≠ some 'Z' :=
  ⟨rfl, by decide⟩

end SecOps
